import Mathlib

/-!
# Carreaux: the 2x2-squares game of `lib/Carreaux.js`

A shallow embedding of the game engine (session record, move validation, placement,
square detection, hints, the command handler and the session table) followed by the
properties proved about it.

Conventions of the embedding.
* Coordinates are integer-valued JavaScript numbers, embedded as `Int`; the
  `typeof x !== 'number'` test of `isValidMove` is therefore always passed.
* `Date.now()` is an input: every clock read made while one command is handled is
  the value `now` given to the handler.
* An uncaught `TypeError` (indexing `undefined`) is the result `none`.
-/

namespace Carreaux

/-! ## Data model -/

/-- The two markers, the strings 'R' and 'B' of the source. -/
inductive Player
  | R
  | B
  deriving DecidableEq, Repr

/-- A grid cell: `none` is JavaScript `null`, `some p` is the marker of player `p`. -/
abbrev Cell := Option Player

/-- The object `score: { R, B }`. -/
structure Score where
  R : Nat
  B : Nat
  deriving DecidableEq, Repr

/-- The object `{ x, y, player }` stored in `lastMove`. -/
structure LastMove where
  x : Int
  y : Int
  player : Player
  deriving DecidableEq, Repr

/-- The game object built by `initGame`. -/
structure Session where
  size : Nat
  grid : List (List Cell)
  score : Score
  turn : Player
  lastMove : Option LastMove
  moveCount : Nat
  lastActivity : Nat
  startTime : Nat
  deriving DecidableEq, Repr

/-- Constant `GAME_CONFIG.GRID_SIZE`. -/
def GRID_SIZE : Nat := 5

/-- Constant `GAME_CONFIG.WIN_SCORE`. -/
def WIN_SCORE : Nat := 5

/-- Constant `GAME_CONFIG.INACTIVE_TIMEOUT`, in milliseconds. -/
def INACTIVE_TIMEOUT : Nat := 30 * 60 * 1000

/-- Constant `GAME_CONFIG.CLEANUP_INTERVAL`, in milliseconds. -/
def CLEANUP_INTERVAL : Nat := 5 * 60 * 1000

/-- Function `initGame()`, lines 16-27; `now` is the value of `Date.now()`. -/
def initGame (now : Nat) : Session :=
  { size := GRID_SIZE
    grid := List.replicate GRID_SIZE (List.replicate GRID_SIZE none)
    score := { R := 0, B := 0 }
    turn := Player.R
    lastMove := none
    moveCount := 0
    lastActivity := now
    startTime := now }

/-! ## Array access -/

/-- JavaScript `arr[i]` for an integer `i`: `none` is `undefined` (no such element). -/
def index {α : Type} (arr : List α) (i : Int) : Option α :=
  if 0 ≤ i then arr[i.toNat]? else none

/-- What evaluating `game.grid[y][x]` yields. -/
inductive Read
  | typeError
  | undefined
  | value (c : Cell)
  deriving DecidableEq, Repr

/-- The expression `game.grid[y][x]`: when `game.grid[y]` is `undefined` the second
indexing throws a `TypeError`; when the row has no element `x` the value is `undefined`. -/
def readCell (grid : List (List Cell)) (x y : Int) : Read :=
  match index grid y with
  | none => Read.typeError
  | some row =>
    match index row x with
    | none => Read.undefined
    | some c => Read.value c

/-- The assignment `game.grid[y][x] = v` to a slot that exists. Both call sites
(`placePiece` after `isValidMove`, and the simulation in `getHints`) write only to a
slot that has just been read as `null`; elsewhere the grid is left as it is. -/
def writeCell (grid : List (List Cell)) (x y : Int) (v : Cell) : List (List Cell) :=
  match index grid y with
  | none => grid
  | some row => if 0 ≤ x then grid.set y.toNat (row.set x.toNat v) else grid

/-- The session has a `size` x `size` grid: `size` rows of `size` cells. -/
def WellFormed (game : Session) : Prop :=
  game.grid.length = game.size ∧ ∀ row ∈ game.grid, row.length = game.size

instance (game : Session) : Decidable (WellFormed game) := by
  unfold WellFormed; infer_instance

/-! ## Move validation and placement -/

/-- Function `isValidMove(game, x, y)`, lines 30-35. `none` is a thrown `TypeError`. -/
def isValidMove (game : Session) (x y : Int) : Option Bool :=
  if x < 0 ∨ x ≥ game.size ∨ y < 0 ∨ y ≥ game.size then some false
  else
    match readCell game.grid x y with
    | Read.typeError => none
    | Read.value none => some true
    | _ => some false

/-- A JavaScript number as far as move validation can tell numbers apart: an
integer, a finite non-integer lying strictly between `floor` and `floor + 1`, or
`NaN`. -/
inductive JsNumber
  | int (n : Int)
  | fraction (floor : Int)
  | nan
  deriving DecidableEq, Repr

/-- The comparison `a < n` with an integer `n`; every comparison with `NaN` is false. -/
def JsNumber.lt : JsNumber → Int → Bool
  | JsNumber.int k, n => decide (k < n)
  | JsNumber.fraction f, n => decide (f < n)
  | JsNumber.nan, _ => false

/-- The comparison `a >= n` with an integer `n`; every comparison with `NaN` is false. -/
def JsNumber.ge : JsNumber → Int → Bool
  | JsNumber.int k, n => decide (k ≥ n)
  | JsNumber.fraction f, n => decide (f ≥ n)
  | JsNumber.nan, _ => false

/-- JavaScript `arr[a]` for a number `a`: an array has elements at integer indices
only, so a non-integer or `NaN` index yields `undefined`. -/
def indexNumber {α : Type} (arr : List α) : JsNumber → Option α
  | JsNumber.int k => index arr k
  | _ => none

/-- The expression `game.grid[y][x]` for numbers `x` and `y`. -/
def readCellNumber (grid : List (List Cell)) (x y : JsNumber) : Read :=
  match indexNumber grid y with
  | none => Read.typeError
  | some row =>
    match indexNumber row x with
    | none => Read.undefined
    | some c => Read.value c

/-- Function `isValidMove(game, x, y)`, lines 30-35, for arguments that are numbers
but need not be integers (the `typeof` test is passed). `none` is a thrown
`TypeError`. -/
def isValidMoveNumber (game : Session) (x y : JsNumber) : Option Bool :=
  if x.lt 0 ∨ x.ge game.size ∨ y.lt 0 ∨ y.ge game.size then some false
  else
    match readCellNumber game.grid x y with
    | Read.typeError => none
    | Read.value none => some true
    | _ => some false

/-- Function `placePiece(game, x, y)`, lines 38-43; `now` is the value of `Date.now()`. -/
def placePiece (game : Session) (x y : Int) (now : Nat) : Session :=
  { game with
    grid := writeCell game.grid x y (some game.turn)
    lastMove := some { x := x, y := y, player := game.turn }
    moveCount := game.moveCount + 1
    lastActivity := now }

/-! ## Square detection -/

/-- The array `checkPositions` of lines 51-53: the four candidate top-left corners. -/
def checkPositions (x y : Int) : List (Int × Int) :=
  [(x - 1, y - 1), (x, y - 1), (x - 1, y), (x, y)]

/-- The array `corners` of lines 59-62. -/
def corners (topX topY : Int) : List (Int × Int) :=
  [(topX, topY), (topX + 1, topY), (topX, topY + 1), (topX + 1, topY + 1)]

/-- The call `corners.every(([cx, cy]) => game.grid[cy][cx] === player)` of line 64:
the corners are read in order, the first one that is not `player` ends the scan with
false, and a read that throws ends it with `none`. -/
def everyCorner (grid : List (List Cell)) (player : Player) :
    List (Int × Int) → Option Bool
  | [] => some true
  | (cx, cy) :: rest =>
    match readCell grid cx cy with
    | Read.typeError => none
    | Read.value (some p) => if p = player then everyCorner grid player rest else some false
    | _ => some false

/-- The `for` loop of lines 55-68 over the remaining positions, with the running
value of `squaresFound`. -/
def checkSquaresLoop (game : Session) (player : Player) :
    List (Int × Int) → Nat → Option Nat
  | [], squaresFound => some squaresFound
  | (topX, topY) :: rest, squaresFound =>
    if topX ≥ 0 ∧ topY ≥ 0 ∧ topX + 1 < game.size ∧ topY + 1 < game.size then
      match everyCorner game.grid player (corners topX topY) with
      | none => none
      | some true => checkSquaresLoop game player rest (squaresFound + 1)
      | some false => checkSquaresLoop game player rest squaresFound
    else checkSquaresLoop game player rest squaresFound

/-- Function `checkSquares(game, x, y)`, lines 46-71. `none` is a thrown `TypeError`. -/
def checkSquares (game : Session) (x y : Int) : Option Nat :=
  checkSquaresLoop game game.turn (checkPositions x y) 0

/-- The call of line 64 together with the grid accesses `(cx, cy)` it makes, in the
order in which it makes them. -/
def everyCornerReads (grid : List (List Cell)) (player : Player) :
    List (Int × Int) → List (Int × Int) × Option Bool
  | [] => ([], some true)
  | (cx, cy) :: rest =>
    match readCell grid cx cy with
    | Read.typeError => ([(cx, cy)], none)
    | Read.value (some p) =>
      if p = player then
        ((cx, cy) :: (everyCornerReads grid player rest).1,
          (everyCornerReads grid player rest).2)
      else ([(cx, cy)], some false)
    | _ => ([(cx, cy)], some false)

/-- The loop of lines 55-68 together with the grid accesses it makes. -/
def checkSquaresLoopReads (game : Session) (player : Player) :
    List (Int × Int) → Nat → List (Int × Int) × Option Nat
  | [], squaresFound => ([], some squaresFound)
  | (topX, topY) :: rest, squaresFound =>
    if topX ≥ 0 ∧ topY ≥ 0 ∧ topX + 1 < game.size ∧ topY + 1 < game.size then
      match everyCornerReads game.grid player (corners topX topY) with
      | (reads, none) => (reads, none)
      | (reads, some true) =>
        (reads ++ (checkSquaresLoopReads game player rest (squaresFound + 1)).1,
          (checkSquaresLoopReads game player rest (squaresFound + 1)).2)
      | (reads, some false) =>
        (reads ++ (checkSquaresLoopReads game player rest squaresFound).1,
          (checkSquaresLoopReads game player rest squaresFound).2)
    else checkSquaresLoopReads game player rest squaresFound

/-- Function `checkSquares(game, x, y)` together with the list of the grid accesses
`game.grid[cy][cx]` it makes, as pairs `(cx, cy)`. -/
def checkSquaresReads (game : Session) (x y : Int) : List (Int × Int) × Option Nat :=
  checkSquaresLoopReads game game.turn (checkPositions x y) 0

/-! ## Statistics -/

/-- Function `formatTime(seconds)`, lines 132-136: the minutes and seconds that the
template string prints. -/
def formatTime (seconds : Int) : Int × Int :=
  (Int.fdiv seconds 60, Int.tmod seconds 60)

/-- The object returned by `getGameStats`. -/
structure Stats where
  totalMoves : Nat
  emptySpaces : Int
  currentPlayer : Player
  gameTime : Int × Int
  scoreR : Nat
  scoreB : Nat
  deriving DecidableEq, Repr

/-- Function `getGameStats(game)`, lines 116-129; `now` is the value of `Date.now()`. -/
def getGameStats (game : Session) (now : Nat) : Stats :=
  let totalMoves := game.moveCount
  let emptySpaces : Int := (game.size : Int) * game.size - totalMoves
  let gameTime : Int := Int.fdiv ((now : Int) - game.startTime) 1000
  { totalMoves := totalMoves
    emptySpaces := emptySpaces
    currentPlayer := if game.turn = Player.R then Player.R else Player.B
    gameTime := formatTime gameTime
    scoreR := game.score.R
    scoreB := game.score.B }

/-! ## Hints -/

/-- The object `{ x, y, squares }` pushed by `getHints`. -/
structure Hint where
  x : Int
  y : Int
  squares : Nat
  deriving DecidableEq, Repr

/-- The cells in the order in which the two nested loops of lines 143-144 visit them:
`y` ascending, then `x` ascending. -/
def scanOrder (size : Nat) : List (Int × Int) :=
  (List.range size).flatMap fun y => (List.range size).map fun x => ((x : Int), (y : Int))

/-- The body of the nested loops of lines 143-156 run over the remaining cells.
The session is threaded through because the simulation writes to the grid; the
result is the session as the loop leaves it and the collected hints, `none` when
a read threw. -/
def hintsLoop (player : Player) :
    List (Int × Int) → Session → List Hint → Session × Option (List Hint)
  | [], game, hints => (game, some hints)
  | (x, y) :: rest, game, hints =>
    match readCell game.grid x y with
    | Read.typeError => (game, none)
    | Read.value none =>
      let simulated := { game with grid := writeCell game.grid x y (some player) }
      match checkSquares simulated x y with
      | none => (simulated, none)
      | some squares =>
        let reverted := { simulated with grid := writeCell simulated.grid x y none }
        hintsLoop player rest reverted
          (if squares > 0 then hints ++ [{ x := x, y := y, squares := squares }] else hints)
    | _ => hintsLoop player rest game hints

/-- The comparator `(a, b) => b.squares - a.squares` is not positive: `a` may stay
before `b`. -/
def hintOrder (a b : Hint) : Prop := b.squares ≤ a.squares

instance : DecidableRel hintOrder := fun a b => by
  unfold hintOrder; infer_instance

instance : IsTotal Hint hintOrder := ⟨fun a b => Nat.le_total b.squares a.squares⟩

instance : IsTrans Hint hintOrder := ⟨fun _ _ _ hab hbc => Nat.le_trans hbc hab⟩

/-- Function `getHints(game)`, lines 139-159. `Array.prototype.sort` is a stable
sort, embedded as insertion sort; `slice(0, 3)` is `take 3`. The result is the
session as the call leaves it and the returned array, `none` when a read threw. -/
def getHints (game : Session) : Session × Option (List Hint) :=
  let player := game.turn
  match hintsLoop player (scanOrder game.size) game [] with
  | (after, none) => (after, none)
  | (after, some hints) => (after, some ((hints.insertionSort hintOrder).take 3))

/-! ## Session table -/

/-- The global `gameState`, a `Map` from chat id to game object, as its entries. -/
structure GameState where
  entries : List (String × Session)
  deriving DecidableEq, Repr

/-- Method `gameState.get(chatId)`; `none` is `undefined`. -/
def GameState.get (m : GameState) (chatId : String) : Option Session :=
  (m.entries.find? fun e => e.1 == chatId).map fun e => e.2

/-- Method `gameState.has(chatId)`. -/
def GameState.has (m : GameState) (chatId : String) : Bool :=
  (m.get chatId).isSome

/-- Method `gameState.set(chatId, game)`: an existing key keeps its place. -/
def GameState.set (m : GameState) (chatId : String) (game : Session) : GameState :=
  if m.has chatId then
    { entries := m.entries.map fun e => if e.1 == chatId then (chatId, game) else e }
  else
    { entries := m.entries ++ [(chatId, game)] }

/-- Method `gameState.delete(chatId)`. -/
def GameState.delete (m : GameState) (chatId : String) : GameState :=
  { entries := m.entries.filter fun e => e.1 != chatId }

/-! ## Command handler -/

/-- The sub-commands that the `switch` of lines 184-281 tells apart. `move x y` is
the default branch taken with two numeric arguments whose `parseInt` values are the
integers `x` and `y`; `unknown` is the default branch otherwise. -/
inductive Command
  | start
  | board
  | stats
  | help
  | hint
  | quit
  | move (x y : Int)
  | unknown
  deriving DecidableEq, Repr

/-- Which templated message is handed to `reply`, with the values it prints. -/
inductive Reply
  | newGame
  | board (stats : Stats)
  | stats (stats : Stats)
  | help
  | noHint
  | hints (hs : List Hint)
  | quit (finalStats : Stats)
  | invalidMove (x y : Int)
  | win (squaresFormed : Nat) (winner : Player) (score : Score) (finalStats : Stats)
  | draw (squaresFormed : Nat) (score : Score) (finalStats : Stats)
  | moved (squaresFormed : Nat) (score : Score) (turn : Player)
  | unknown
  | error
  deriving DecidableEq, Repr

/-- The statement `game.score[game.turn] += squaresFormed` of line 244. -/
def addScore (game : Session) (squaresFormed : Nat) : Session :=
  match game.turn with
  | Player.R => { game with score := { game.score with R := game.score.R + squaresFormed } }
  | Player.B => { game with score := { game.score with B := game.score.B + squaresFormed } }

/-- The score update of lines 242-245: `if (squaresFormed > 0) game.score[game.turn] +=
squaresFormed`. -/
def scoreUpdate (game : Session) (squaresFormed : Nat) : Session :=
  if squaresFormed > 0 then addScore game squaresFormed else game

/-- How the move branch ends, with the game object as it then is. -/
inductive MoveOutcome
  | threw (game : Session)
  | rejected (game : Session)
  | won (squaresFormed : Nat) (winner : Player) (game : Session)
  | drawn (squaresFormed : Nat) (game : Session)
  | continued (squaresFormed : Nat) (game : Session)
  deriving DecidableEq, Repr

/-- The game object as the move branch leaves it. -/
def MoveOutcome.game : MoveOutcome → Session
  | MoveOutcome.threw game => game
  | MoveOutcome.rejected game => game
  | MoveOutcome.won _ _ game => game
  | MoveOutcome.drawn _ game => game
  | MoveOutcome.continued _ game => game

/-- The value of `squaresFormed` that an accepted move reports; `none` when the move
was rejected or the branch threw. -/
def MoveOutcome.squaresFormed : MoveOutcome → Option Nat
  | MoveOutcome.threw _ => none
  | MoveOutcome.rejected _ => none
  | MoveOutcome.won k _ _ => some k
  | MoveOutcome.drawn k _ => some k
  | MoveOutcome.continued k _ => some k

/-- Whether the move ended the game (a win or a draw), after which the session is deleted. -/
def MoveOutcome.ended : MoveOutcome → Bool
  | MoveOutcome.won _ _ _ => true
  | MoveOutcome.drawn _ _ => true
  | _ => false

/-- The move flow of lines 229-276 on the game object: validation, placement,
square check and score update, win check, draw check, turn flip. `threw` is an
exception caught at line 283. -/
def moveFlow (game : Session) (x y : Int) (now : Nat) : MoveOutcome :=
  match isValidMove game x y with
  | none => MoveOutcome.threw game
  | some false => MoveOutcome.rejected game
  | some true =>
    let placed := placePiece game x y now
    match checkSquares placed x y with
    | none => MoveOutcome.threw placed
    | some squaresFormed =>
      let scored := scoreUpdate placed squaresFormed
      if scored.score.R ≥ WIN_SCORE ∨ scored.score.B ≥ WIN_SCORE then
        let winner := if scored.score.R ≥ WIN_SCORE then Player.R else Player.B
        MoveOutcome.won squaresFormed winner scored
      else if scored.moveCount ≥ scored.size * scored.size then
        MoveOutcome.drawn squaresFormed scored
      else
        MoveOutcome.continued squaresFormed
          { scored with turn := if scored.turn = Player.R then Player.B else Player.R }

/-- The handler registered for the pattern "carreaux", lines 169-287: the session
table after the command and the message replied. -/
def carreaux (gameState : GameState) (chatId : String) (command : Command) (now : Nat) :
    GameState × Reply :=
  let gameState := if gameState.has chatId then gameState else gameState.set chatId (initGame now)
  match gameState.get chatId with
  | none => (gameState, Reply.error)
  | some game =>
    match command with
    | Command.start => (gameState.set chatId (initGame now), Reply.newGame)
    | Command.board => (gameState, Reply.board (getGameStats game now))
    | Command.stats => (gameState, Reply.stats (getGameStats game now))
    | Command.help => (gameState, Reply.help)
    | Command.hint =>
      match getHints game with
      | (after, none) => (gameState.set chatId after, Reply.error)
      | (after, some hints) =>
        if hints.length = 0 then (gameState.set chatId after, Reply.noHint)
        else (gameState.set chatId after, Reply.hints hints)
    | Command.quit => (gameState.delete chatId, Reply.quit (getGameStats game now))
    | Command.move x y =>
      match moveFlow game x y now with
      | MoveOutcome.threw after => (gameState.set chatId after, Reply.error)
      | MoveOutcome.rejected _ => (gameState, Reply.invalidMove x y)
      | MoveOutcome.won squaresFormed winner final =>
        (gameState.delete chatId,
          Reply.win squaresFormed winner final.score (getGameStats final now))
      | MoveOutcome.drawn squaresFormed final =>
        (gameState.delete chatId, Reply.draw squaresFormed final.score (getGameStats final now))
      | MoveOutcome.continued squaresFormed next =>
        (gameState.set chatId next, Reply.moved squaresFormed next.score next.turn)
    | Command.unknown => (gameState, Reply.unknown)

/-- The callback of `cleanupInterval`, lines 290-304, run at time `now`: the table
after the sweep and the counter `cleaned`. -/
def cleanupInterval (gameState : GameState) (now : Nat) : GameState × Nat :=
  let idle := fun (e : String × Session) =>
    decide ((now : Int) - e.2.lastActivity > INACTIVE_TIMEOUT)
  ({ entries := gameState.entries.filter fun e => !idle e }, gameState.entries.countP idle)

/-- Sessions that the move flow can produce from a fresh game: `initGame` followed
by accepted moves that did not end the game. -/
inductive Reachable : Session → Prop
  | fresh (now : Nat) : Reachable (initGame now)
  | move {game next : Session} (x y : Int) (now squaresFormed : Nat) :
      Reachable game → moveFlow game x y now = MoveOutcome.continued squaresFormed next →
      Reachable next


/-! ## Specification-level definitions -/

/-- The expression `score[player]`. -/
def Score.of (score : Score) : Player → Nat
  | Player.R => score.R
  | Player.B => score.B

/-- The other marker. -/
def Player.other : Player → Player
  | Player.R => Player.B
  | Player.B => Player.R

/-- The number of occupied (non-null) cells of a grid. -/
def occupied (grid : List (List Cell)) : Nat :=
  (grid.map fun row => row.countP Option.isSome).sum

/-- Every cell of the grid is occupied. -/
def gridFull (grid : List (List Cell)) : Prop :=
  ∀ row ∈ grid, ∀ c ∈ row, c ≠ none

instance (grid : List (List Cell)) : Decidable (gridFull grid) := by
  unfold gridFull; infer_instance

/-- Some player's score is at least the win score, or every cell of the grid is
occupied. -/
def gameOver (game : Session) : Prop :=
  game.score.R ≥ WIN_SCORE ∨ game.score.B ≥ WIN_SCORE ∨ gridFull game.grid

instance (game : Session) : Decidable (gameOver game) := by
  unfold gameOver; infer_instance

/-- The handler run on each move of a list in turn, from the game object `game`: a
move that continues the game hands its session to the next move, any other move
leaves the session where it was. -/
def playMoves (now : Nat) : Session → List (Int × Int) → Session
  | game, [] => game
  | game, (x, y) :: rest =>
    match moveFlow game x y now with
    | MoveOutcome.continued _ next => playMoves now next rest
    | _ => playMoves now game rest

/-- A game of 24 accepted moves after which red holds two squares, blue three, and
only the cell (1, 1) is free: red playing there completes three squares at once. -/
def lastCellWins : List (Int × Int) :=
  [(0, 0), (2, 2), (1, 0), (3, 2), (2, 0), (4, 2), (3, 0), (0, 3), (4, 0), (1, 3),
   (0, 1), (3, 3), (2, 1), (4, 3), (3, 1), (0, 4), (4, 1), (1, 4), (0, 2), (2, 4),
   (1, 2), (3, 4), (2, 3), (4, 4)]

/-- A game of 24 accepted moves on alternating colours of a checkerboard, after which
no square exists and only the cell (4, 4) is free. -/
def checkerboard : List (Int × Int) :=
  [(0, 0), (1, 0), (2, 0), (3, 0), (4, 0), (0, 1), (1, 1), (2, 1), (3, 1), (4, 1),
   (0, 2), (1, 2), (2, 2), (3, 2), (4, 2), (0, 3), (1, 3), (2, 3), (3, 3), (4, 3),
   (0, 4), (1, 4), (2, 4), (3, 4)]

/-- A game of 21 accepted moves after which blue holds four squares and red two:
blue playing (3, 1) completes a fifth square. -/
def blueWins : List (Int × Int) :=
  [(4, 0), (0, 0), (4, 1), (1, 0), (4, 2), (2, 0), (4, 3), (0, 1), (4, 4), (1, 1),
   (3, 2), (2, 1), (3, 3), (0, 2), (3, 4), (1, 2), (0, 3), (2, 2), (1, 3), (3, 0),
   (2, 3)]

/-- A `Map` holds each key once: no chat id occurs in two entries of the table. -/
def GameState.UniqueKeys (m : GameState) : Prop :=
  (m.entries.map fun e => e.1).Nodup

instance (m : GameState) : Decidable m.UniqueKeys := by
  unfold GameState.UniqueKeys; infer_instance

/-- The number of empty (null) cells of a grid. -/
def emptyCells (grid : List (List Cell)) : Nat :=
  (grid.map fun row => row.countP Option.isNone).sum

/-- The statistics agree with the grid: `totalMoves` is the number of occupied
cells, `emptySpaces` the number of empty cells, and `emptySpaces` lies in 0..25. -/
def StatsExact (game : Session) (now : Nat) : Prop :=
  (getGameStats game now).totalMoves = occupied game.grid ∧
  (getGameStats game now).emptySpaces = emptyCells game.grid ∧
  0 ≤ (getGameStats game now).emptySpaces ∧ (getGameStats game now).emptySpaces ≤ 25

instance (game : Session) (now : Nat) : Decidable (StatsExact game now) := by
  unfold StatsExact; infer_instance

/-- A game of 20 accepted moves after which red, on turn, can complete three squares
at (1, 1) and one square at each of (3, 0), (4, 1) and (2, 2). -/
def hintPosition : List (Int × Int) :=
  [(0, 0), (4, 0), (1, 0), (0, 3), (2, 0), (1, 3), (0, 1), (2, 3), (2, 1), (3, 3),
   (3, 1), (4, 3), (0, 2), (0, 4), (1, 2), (1, 4), (3, 2), (3, 4), (4, 2), (4, 4)]

/-- What holds of every session that the move flow keeps in the table: a 5 x 5 grid,
a move counter equal to the number of occupied cells, both scores below the win
score and at least one free cell. -/
structure Inv (game : Session) : Prop where
  size_eq : game.size = GRID_SIZE
  wf : WellFormed game
  count : game.moveCount = occupied game.grid
  scoreR : game.score.R < WIN_SCORE
  scoreB : game.score.B < WIN_SCORE
  moves : game.moveCount < game.size * game.size

/-- The 2x2 sub-square whose top-left cell is `(a, b)` lies entirely inside the grid
and each of its four cells holds the marker `player`. -/
def completeSquare (game : Session) (player : Player) (a b : Int) : Bool :=
  decide (0 ≤ a ∧ 0 ≤ b ∧ a + 1 < game.size ∧ b + 1 < game.size) &&
  [(a, b), (a + 1, b), (a, b + 1), (a + 1, b + 1)].all fun c =>
    decide (readCell game.grid c.1 c.2 = Read.value (some player))

/-- The 2x2 sub-square whose top-left cell is `(a, b)` contains the cell `(x, y)`. -/
def containsCell (a b x y : Int) : Bool :=
  decide ((x = a ∨ x = a + 1) ∧ (y = b ∨ y = b + 1))

/-- Every cell `(a, b)` of a `size` x `size` grid, each listed once. -/
def gridCells (size : Nat) : List (Int × Int) :=
  (List.range size ×ˢ List.range size).map fun p => ((p.1 : Int), (p.2 : Int))

/-- The number of 2x2 sub-squares of the grid that contain the cell `(x, y)` and are
complete for the player whose turn it is, each sub-square counted once by its
top-left cell. -/
def countSquaresAt (game : Session) (x y : Int) : Nat :=
  ((gridCells game.size).filter fun c =>
    containsCell c.1 c.2 x y && completeSquare game game.turn c.1 c.2).length

/-- The number of 2x2 sub-squares of the grid whose four cells all hold the marker
`player`, each counted once by its top-left cell. -/
def squaresOf (game : Session) (player : Player) : Nat :=
  ((gridCells game.size).filter fun c => completeSquare game player c.1 c.2).length

/-- Each score is the number of complete squares of that colour on the grid, and the
two scores together are at most 16. -/
def ScoreExact (game : Session) : Prop :=
  game.score.R = squaresOf game Player.R ∧ game.score.B = squaresOf game Player.B ∧
  game.score.R + game.score.B ≤ 16

instance (game : Session) : Decidable (ScoreExact game) := by
  unfold ScoreExact; infer_instance

/-- What the simulation of a placement at the cell `c` yields for the player on
turn: a hint when the cell is empty and `checkSquares`, on the grid with that cell
set to the player's marker, counts at least one square. -/
def hintFor (game : Session) (c : Int × Int) : Option Hint :=
  match readCell game.grid c.1 c.2 with
  | Read.value none =>
    match checkSquares { game with grid := writeCell game.grid c.1 c.2 (some game.turn) }
        c.1 c.2 with
    | some squares =>
      if squares > 0 then some { x := c.1, y := c.2, squares := squares } else none
    | none => none
  | _ => none

/-- All empty cells whose simulated placement yields at least one square, in
row-major scan order. -/
def qualifyingCells (game : Session) : List Hint :=
  (scanOrder game.size).filterMap (hintFor game)

/-- A list of hints ordered by descending square count, hints of equal count kept
in the order of the list: those of count 4, then 3, then 2, then 1. -/
def byDescendingCount (l : List Hint) : List Hint :=
  [4, 3, 2, 1].flatMap fun k => l.filter fun h => decide (h.squares = k)

/-- The first three qualifying cells in descending order of square count, ties in
scan order. -/
def hintsSpec (game : Session) : List Hint :=
  (byDescendingCount (qualifyingCells game)).take 3

/-! ## Array access lemmas -/

theorem index_isSome {α : Type} (arr : List α) (i : Int) (h0 : 0 ≤ i) (h1 : i < arr.length) :
    ∃ a, index arr i = some a ∧ a ∈ arr := by
  have hlt : i.toNat < arr.length := by omega
  refine ⟨arr[i.toNat], ?_, List.getElem_mem _⟩
  simp [index, h0, List.getElem?_eq_getElem hlt]

theorem readCell_wellFormed (game : Session) (hwf : WellFormed game) (x y : Int)
    (hx0 : 0 ≤ x) (hx1 : x < game.size) (hy0 : 0 ≤ y) (hy1 : y < game.size) :
    ∃ c, readCell game.grid x y = Read.value c := by
  obtain ⟨hlen, hrows⟩ := hwf
  obtain ⟨row, hrow, hmem⟩ := index_isSome game.grid y hy0 (by omega)
  obtain ⟨c, hc, _⟩ := index_isSome row x hx0 (by rw [hrows row hmem]; exact hx1)
  exact ⟨c, by simp [readCell, hrow, hc]⟩

theorem index_eq_some {α : Type} (arr : List α) (i : Int) (a : α) (h : index arr i = some a) :
    0 ≤ i ∧ arr[i.toNat]? = some a := by
  unfold index at h
  split at h
  · exact ⟨by assumption, h⟩
  · cases h

theorem readCell_eq_value (grid : List (List Cell)) (x y : Int) (c : Cell)
    (h : readCell grid x y = Read.value c) :
    ∃ row, index grid y = some row ∧ index row x = some c := by
  unfold readCell at h
  cases hrow : index grid y with
  | none => simp [hrow] at h
  | some row =>
    cases hc : index row x with
    | none => simp [hrow, hc] at h
    | some d =>
      simp [hrow, hc] at h
      exact ⟨row, rfl, by rw [hc, h]⟩

theorem writeCell_length (grid : List (List Cell)) (x y : Int) (v : Cell) :
    (writeCell grid x y v).length = grid.length := by
  unfold writeCell
  cases index grid y with
  | none => rfl
  | some row =>
    by_cases hx : 0 ≤ x
    · simp [hx]
    · simp [hx]

theorem writeCell_rows (grid : List (List Cell)) (x y : Int) (v : Cell) (n : Nat)
    (h : ∀ row ∈ grid, row.length = n) : ∀ row ∈ writeCell grid x y v, row.length = n := by
  unfold writeCell
  cases hrow : index grid y with
  | none => exact h
  | some row =>
    by_cases hx : 0 ≤ x
    · simp only [hx, if_true]
      intro r hr
      rcases List.mem_or_eq_of_mem_set hr with hm | rfl
      · exact h r hm
      · rw [List.length_set]
        exact h row (List.getElem?_mem (index_eq_some _ _ _ hrow).2)
    · simpa [hx] using h

theorem readCell_writeCell_self (grid : List (List Cell)) (x y : Int) (c v : Cell)
    (h : readCell grid x y = Read.value c) :
    readCell (writeCell grid x y v) x y = Read.value v := by
  obtain ⟨row, hrow, hc⟩ := readCell_eq_value grid x y c h
  obtain ⟨hy, hgy⟩ := index_eq_some _ _ _ hrow
  obtain ⟨hx, hgx⟩ := index_eq_some _ _ _ hc
  have hylt : y.toNat < grid.length := (List.getElem?_eq_some_iff.mp hgy).1
  have hxlt : x.toNat < row.length := (List.getElem?_eq_some_iff.mp hgx).1
  have hrowlen : row = grid[y.toNat] := by
    rw [List.getElem?_eq_getElem hylt] at hgy
    exact (Option.some.inj hgy).symm
  have hxlt2 : x < ((grid[y.toNat]).length : Int) := by rw [← hrowlen]; omega
  simp [readCell, writeCell, hrow, hx, index, hy, List.getElem?_set, hylt, hxlt2]

theorem wellFormed_placePiece (game : Session) (x y : Int) (now : Nat) (hwf : WellFormed game) :
    WellFormed (placePiece game x y now) :=
  ⟨by simpa [placePiece, writeCell_length] using hwf.1,
    writeCell_rows game.grid x y _ game.size hwf.2⟩

/-! ## Square detection lemmas -/

theorem everyCorner_eq (grid : List (List Cell)) (player : Player) (cs : List (Int × Int))
    (h : ∀ c ∈ cs, readCell grid c.1 c.2 ≠ Read.typeError) :
    everyCorner grid player cs =
      some (cs.all fun c => decide (readCell grid c.1 c.2 = Read.value (some player))) := by
  induction cs with
  | nil => rfl
  | cons c rest ih =>
    obtain ⟨cx, cy⟩ := c
    have hc := h (cx, cy) (List.mem_cons_self _ _)
    have ih2 := ih fun c hm => h c (List.mem_cons_of_mem _ hm)
    simp only [everyCorner, List.all_cons]
    cases hr : readCell grid cx cy with
    | typeError => exact absurd hr hc
    | undefined => simp
    | value v =>
      cases v with
      | none => simp
      | some p =>
        by_cases hp : p = player
        · simp [hp, ih2]
        · simp [hp]

theorem checkSquaresLoop_eq (game : Session) (hwf : WellFormed game) (player : Player)
    (l : List (Int × Int)) (n : Nat) :
    checkSquaresLoop game player l n =
      some (n + l.countP fun c => completeSquare game player c.1 c.2) := by
  induction l generalizing n with
  | nil => simp [checkSquaresLoop]
  | cons c rest ih =>
    obtain ⟨a, b⟩ := c
    by_cases hb : a ≥ 0 ∧ b ≥ 0 ∧ a + 1 < game.size ∧ b + 1 < game.size
    · have hreads : ∀ c ∈ corners a b, readCell game.grid c.1 c.2 ≠ Read.typeError := by
        intro c hc
        simp only [corners, List.mem_cons, List.mem_singleton, List.mem_nil_iff,
          or_false] at hc
        have hin : 0 ≤ c.1 ∧ c.1 < game.size ∧ 0 ≤ c.2 ∧ c.2 < game.size := by
          rcases hc with rfl | rfl | rfl | rfl <;> simp <;> omega
        obtain ⟨v, hv⟩ := readCell_wellFormed game hwf c.1 c.2 hin.1 hin.2.1 hin.2.2.1 hin.2.2.2
        rw [hv]; simp
      have hb2 : 0 ≤ a ∧ 0 ≤ b ∧ a + 1 < game.size ∧ b + 1 < game.size := hb
      rw [checkSquaresLoop, if_pos hb, everyCorner_eq _ _ _ hreads, List.countP_cons]
      cases hall : (corners a b).all fun c =>
          decide (readCell game.grid c.1 c.2 = Read.value (some player)) with
      | true =>
        have hcs : completeSquare game player a b = true := by
          simp only [completeSquare, hb2, and_self, decide_True, Bool.true_and]
          exact hall
        simp only [ih, hcs, if_true]
        congr 1; omega
      | false =>
        have hcs : completeSquare game player a b = false := by
          simp only [completeSquare, hb2, and_self, decide_True, Bool.true_and]
          exact hall
        simp [ih, hcs]
    · have hb2 : ¬ (0 ≤ a ∧ 0 ≤ b ∧ a + 1 < game.size ∧ b + 1 < game.size) := hb
      have hcs : completeSquare game player a b = false := by
        simp [completeSquare, hb2]
      rw [checkSquaresLoop, if_neg hb, List.countP_cons]
      simp [ih, hcs]

theorem checkSquares_eq (game : Session) (hwf : WellFormed game) (x y : Int) :
    checkSquares game x y =
      some ((checkPositions x y).countP fun c => completeSquare game game.turn c.1 c.2) := by
  simp [checkSquares, checkSquaresLoop_eq game hwf]

theorem checkSquares_le_four (game : Session) (x y : Int) (k : Nat)
    (h : checkSquares game x y = some k) (hwf : WellFormed game) : k ≤ 4 := by
  rw [checkSquares_eq game hwf] at h
  injection h with h
  rw [← h]
  exact List.countP_le_length _

/-! ## Counting squares through a cell -/

theorem mem_gridCells (size : Nat) (c : Int × Int) :
    c ∈ gridCells size ↔ 0 ≤ c.1 ∧ c.1 < size ∧ 0 ≤ c.2 ∧ c.2 < size := by
  obtain ⟨a, b⟩ := c
  simp only [gridCells, List.mem_map, Prod.exists, List.mem_product, List.mem_range,
    Prod.mk.injEq]
  constructor
  · rintro ⟨i, j, ⟨hi, hj⟩, rfl, rfl⟩
    omega
  · rintro ⟨h1, h2, h3, h4⟩
    exact ⟨a.toNat, b.toNat, ⟨by omega, by omega⟩, by omega, by omega⟩

theorem nodup_gridCells (size : Nat) : (gridCells size).Nodup := by
  unfold gridCells
  refine List.Nodup.map ?_ (List.Nodup.product (List.nodup_range _) (List.nodup_range _))
  rintro ⟨a, b⟩ ⟨c, d⟩ h
  simp only [Prod.mk.injEq, Nat.cast_inj] at h
  simp [h.1, h.2]

theorem nodup_checkPositions (x y : Int) : (checkPositions x y).Nodup := by
  simp only [checkPositions, List.nodup_cons, List.mem_cons, List.mem_singleton,
    Prod.mk.injEq, List.not_mem_nil, not_false_eq_true, List.nodup_nil, and_true, not_or]
  omega

theorem mem_checkPositions (x y : Int) (c : Int × Int) :
    c ∈ checkPositions x y ↔ containsCell c.1 c.2 x y = true := by
  obtain ⟨a, b⟩ := c
  simp only [checkPositions, List.mem_cons, List.mem_singleton, Prod.mk.injEq,
    List.not_mem_nil, or_false, containsCell, decide_eq_true_eq]
  omega

theorem completeSquare_inside (game : Session) (player : Player) (a b : Int)
    (h : completeSquare game player a b = true) : (a, b) ∈ gridCells game.size := by
  simp only [completeSquare, Bool.and_eq_true, decide_eq_true_eq] at h
  rw [mem_gridCells]
  have := h.1
  simp only
  omega

theorem countP_checkPositions (game : Session) (x y : Int) :
    ((checkPositions x y).countP fun c => completeSquare game game.turn c.1 c.2) =
      countSquaresAt game x y := by
  rw [List.countP_eq_length_filter, countSquaresAt]
  apply List.Perm.length_eq
  rw [List.perm_ext_iff_of_nodup ((nodup_checkPositions x y).filter _)
    ((nodup_gridCells game.size).filter _)]
  intro c
  simp only [List.mem_filter, Bool.and_eq_true, mem_checkPositions]
  constructor
  · rintro ⟨h1, h2⟩
    exact ⟨completeSquare_inside game game.turn c.1 c.2 h2, h1, h2⟩
  · rintro ⟨-, h1, h2⟩
    exact ⟨h1, h2⟩

/-! ## Move flow lemmas -/

theorem isValidMove_true (game : Session) (x y : Int) (h : isValidMove game x y = some true) :
    0 ≤ x ∧ x < game.size ∧ 0 ≤ y ∧ y < game.size ∧
      readCell game.grid x y = Read.value none := by
  unfold isValidMove at h
  split at h
  · cases h
  · rename_i hr
    refine ⟨by omega, by omega, by omega, by omega, ?_⟩
    split at h
    · cases h
    · assumption
    · cases h

theorem scoreUpdate_frame (game : Session) (k : Nat) :
    (scoreUpdate game k).size = game.size ∧ (scoreUpdate game k).grid = game.grid ∧
    (scoreUpdate game k).turn = game.turn ∧ (scoreUpdate game k).moveCount = game.moveCount ∧
    (scoreUpdate game k).lastMove = game.lastMove ∧
    (scoreUpdate game k).lastActivity = game.lastActivity ∧
    (scoreUpdate game k).startTime = game.startTime := by
  unfold scoreUpdate addScore
  split_ifs
  · cases game.turn <;> simp
  · simp

theorem scoreUpdate_score (game : Session) (k : Nat) :
    (scoreUpdate game k).score.of game.turn = game.score.of game.turn + k ∧
    (scoreUpdate game k).score.of game.turn.other = game.score.of game.turn.other := by
  unfold scoreUpdate addScore
  split_ifs with hk
  · cases ht : game.turn <;> simp [Score.of, Player.other]
  · have : k = 0 := by omega
    subst this
    simp

theorem moveFlow_accepted (game : Session) (x y : Int) (now k : Nat)
    (hacc : isValidMove game x y = some true)
    (hk : checkSquares (placePiece game x y now) x y = some k) :
    (moveFlow game x y now).squaresFormed = some k ∧
    (moveFlow game x y now).game.score = (scoreUpdate (placePiece game x y now) k).score ∧
    (moveFlow game x y now).game.grid = (placePiece game x y now).grid ∧
    (moveFlow game x y now).game.size = game.size ∧
    (moveFlow game x y now).game.moveCount = game.moveCount + 1 := by
  have hf := scoreUpdate_frame (placePiece game x y now) k
  have hp1 : (placePiece game x y now).size = game.size := rfl
  have hp2 : (placePiece game x y now).moveCount = game.moveCount + 1 := rfl
  simp only [moveFlow, hacc, hk]
  split_ifs <;>
    simp [MoveOutcome.game, MoveOutcome.squaresFormed, hf.1, hf.2.1, hf.2.2.2.1, hp1, hp2]

theorem moveFlow_cases (game : Session) (x y : Int) (now : Nat)
    (hwf : WellFormed game) (hacc : isValidMove game x y = some true) :
    ∃ k scored, checkSquares (placePiece game x y now) x y = some k ∧
      scored = scoreUpdate (placePiece game x y now) k ∧
      (((scored.score.R ≥ WIN_SCORE ∨ scored.score.B ≥ WIN_SCORE) ∧
          moveFlow game x y now = MoveOutcome.won k
            (if scored.score.R ≥ WIN_SCORE then Player.R else Player.B) scored) ∨
        (¬ (scored.score.R ≥ WIN_SCORE ∨ scored.score.B ≥ WIN_SCORE) ∧
          scored.moveCount ≥ scored.size * scored.size ∧
          moveFlow game x y now = MoveOutcome.drawn k scored) ∨
        (¬ (scored.score.R ≥ WIN_SCORE ∨ scored.score.B ≥ WIN_SCORE) ∧
          ¬ scored.moveCount ≥ scored.size * scored.size ∧
          moveFlow game x y now = MoveOutcome.continued k
            { scored with turn := if scored.turn = Player.R then Player.B else Player.R })) := by
  have hwfp := wellFormed_placePiece game x y now hwf
  obtain ⟨k, hk⟩ : ∃ k, checkSquares (placePiece game x y now) x y = some k :=
    ⟨_, checkSquares_eq (placePiece game x y now) hwfp x y⟩
  refine ⟨k, _, hk, rfl, ?_⟩
  simp only [moveFlow, hacc, hk]
  by_cases hw : (scoreUpdate (placePiece game x y now) k).score.R ≥ WIN_SCORE ∨
      (scoreUpdate (placePiece game x y now) k).score.B ≥ WIN_SCORE
  · left
    exact ⟨hw, by rw [if_pos hw]⟩
  · right
    by_cases hd : (scoreUpdate (placePiece game x y now) k).moveCount ≥
        (scoreUpdate (placePiece game x y now) k).size *
          (scoreUpdate (placePiece game x y now) k).size
    · left
      exact ⟨hw, hd, by rw [if_neg hw, if_pos hd]⟩
    · right
      exact ⟨hw, hd, by rw [if_neg hw, if_neg hd]⟩

/-! ## Occupied cells -/

theorem countP_set {α : Type} (p : α → Bool) (l : List α) (i : Nat) (a b : α)
    (h : l[i]? = some b) :
    (l.set i a).countP p + (if p b then 1 else 0) = l.countP p + (if p a then 1 else 0) := by
  induction l generalizing i with
  | nil => simp at h
  | cons c rest ih =>
    cases i with
    | zero =>
      simp only [List.getElem?_cons_zero, Option.some.injEq] at h
      subst h
      simp only [List.set_cons_zero, List.countP_cons]
      omega
    | succ j =>
      simp only [List.getElem?_cons_succ] at h
      have := ih j h
      simp only [List.set_cons_succ, List.countP_cons]
      omega

theorem sum_map_set {α : Type} (f : α → Nat) (l : List α) (i : Nat) (a b : α)
    (h : l[i]? = some b) :
    ((l.set i a).map f).sum + f b = (l.map f).sum + f a := by
  induction l generalizing i with
  | nil => simp at h
  | cons c rest ih =>
    cases i with
    | zero =>
      simp only [List.getElem?_cons_zero, Option.some.injEq] at h
      subst h
      simp only [List.set_cons_zero, List.map_cons, List.sum_cons]
      omega
    | succ j =>
      simp only [List.getElem?_cons_succ] at h
      have := ih j h
      simp only [List.set_cons_succ, List.map_cons, List.sum_cons]
      omega

theorem occupied_writeCell (grid : List (List Cell)) (x y : Int) (p : Player)
    (h : readCell grid x y = Read.value none) :
    occupied (writeCell grid x y (some p)) = occupied grid + 1 := by
  obtain ⟨row, hrow, hc⟩ := readCell_eq_value grid x y none h
  obtain ⟨hy, hgy⟩ := index_eq_some _ _ _ hrow
  obtain ⟨hx, hgx⟩ := index_eq_some _ _ _ hc
  have h1 := countP_set Option.isSome row x.toNat (some p) none hgx
  have h2 := sum_map_set (fun r : List Cell => r.countP Option.isSome) grid y.toNat
    (row.set x.toNat (some p)) row hgy
  simp only [Option.isSome_none, Option.isSome_some, if_true] at h1
  simp only [occupied, writeCell, hrow, hx, if_true]
  simp only [Bool.false_eq_true, if_false, Nat.add_zero] at h1
  have h3 : (List.map (fun r : List Cell => r.countP Option.isSome)
        (grid.set y.toNat (row.set x.toNat (some p)))).sum + row.countP Option.isSome =
      (List.map (fun r : List Cell => r.countP Option.isSome) grid).sum +
        (row.set x.toNat (some p)).countP Option.isSome := h2
  omega

theorem occupied_le (grid : List (List Cell)) :
    occupied grid ≤ (grid.map List.length).sum := by
  induction grid with
  | nil => simp [occupied]
  | cons row rest ih =>
    have := List.countP_le_length Option.isSome (l := row)
    simp only [occupied, List.map_cons, List.sum_cons] at ih ⊢
    omega

theorem occupied_eq_iff (grid : List (List Cell)) :
    occupied grid = (grid.map List.length).sum ↔ gridFull grid := by
  induction grid with
  | nil => simp [occupied, gridFull]
  | cons row rest ih =>
    have h1 := List.countP_le_length Option.isSome (l := row)
    have h2 := occupied_le rest
    have h3 : row.countP Option.isSome = row.length ↔ ∀ c ∈ row, c ≠ none := by
      rw [List.countP_eq_length]
      constructor
      · intro h c hc hn; have := h c hc; rw [hn] at this; simp at this
      · intro h c hc; exact Option.isSome_iff_ne_none.mpr (h c hc)
    have h4 : gridFull (row :: rest) ↔ (∀ c ∈ row, c ≠ none) ∧ gridFull rest := by
      simp [gridFull]
    rw [h4, ← ih, ← h3]
    simp only [occupied, List.map_cons, List.sum_cons] at h2 ⊢
    omega

theorem sum_lengths (grid : List (List Cell)) (n : Nat) (h : ∀ row ∈ grid, row.length = n) :
    (grid.map List.length).sum = grid.length * n := by
  induction grid with
  | nil => simp
  | cons row rest ih =>
    have h1 := h row (List.mem_cons_self _ _)
    have h2 := ih fun r hr => h r (List.mem_cons_of_mem _ hr)
    simp only [List.map_cons, List.sum_cons, List.length_cons, h1, h2]
    ring

/-! ## The invariant of kept sessions -/

theorem inv_initGame (now : Nat) : Inv (initGame now) :=
  { size_eq := rfl
    wf := ⟨by simp [initGame], by simp [initGame]⟩
    count := by simp [initGame, occupied, GRID_SIZE]
    scoreR := by simp [initGame, WIN_SCORE]
    scoreB := by simp [initGame, WIN_SCORE]
    moves := by simp [initGame, GRID_SIZE] }

theorem moveFlow_squaresFormed_accepted (game : Session) (x y : Int) (now k : Nat)
    (h : (moveFlow game x y now).squaresFormed = some k) :
    isValidMove game x y = some true := by
  unfold moveFlow at h
  cases hv : isValidMove game x y with
  | none => simp [hv, MoveOutcome.squaresFormed] at h
  | some b =>
    cases b with
    | false => simp [hv, MoveOutcome.squaresFormed] at h
    | true => rfl

theorem inv_scored (game : Session) (x y : Int) (now k : Nat) (hinv : Inv game)
    (hacc : isValidMove game x y = some true) :
    (scoreUpdate (placePiece game x y now) k).size = GRID_SIZE ∧
    WellFormed (scoreUpdate (placePiece game x y now) k) ∧
    (scoreUpdate (placePiece game x y now) k).moveCount =
      occupied (scoreUpdate (placePiece game x y now) k).grid := by
  obtain ⟨hsz, hgrid, -, hmc, -⟩ := scoreUpdate_frame (placePiece game x y now) k
  have hwfp := wellFormed_placePiece game x y now hinv.wf
  have hocc := occupied_writeCell game.grid x y game.turn (isValidMove_true game x y hacc).2.2.2.2
  refine ⟨by rw [hsz]; exact hinv.size_eq, ?_, ?_⟩
  · unfold WellFormed
    rw [hsz, hgrid]
    exact hwfp
  · rw [hmc, hgrid]
    show game.moveCount + 1 = occupied (writeCell game.grid x y (some game.turn))
    rw [hocc, hinv.count]

theorem inv_continued (game next : Session) (x y : Int) (now k : Nat) (hinv : Inv game)
    (h : moveFlow game x y now = MoveOutcome.continued k next) : Inv next := by
  have hacc : isValidMove game x y = some true :=
    moveFlow_squaresFormed_accepted game x y now k (by rw [h]; rfl)
  obtain ⟨j, scored, -, hs, hcases⟩ := moveFlow_cases game x y now hinv.wf hacc
  obtain ⟨h1, h2, h3⟩ := inv_scored game x y now j hinv hacc
  rw [← hs] at h1 h2 h3
  rcases hcases with ⟨-, hm⟩ | ⟨-, -, hm⟩ | ⟨hw, hd, hm⟩
  · rw [h] at hm; cases hm
  · rw [h] at hm; cases hm
  · rw [h] at hm
    injection hm with hk hnext
    subst hnext
    exact
      { size_eq := h1
        wf := h2
        count := h3
        scoreR := by
          show scored.score.R < WIN_SCORE
          omega
        scoreB := by
          show scored.score.B < WIN_SCORE
          omega
        moves := by
          show scored.moveCount < scored.size * scored.size
          omega }

theorem inv_of_reachable (game : Session) (h : Reachable game) : Inv game := by
  induction h with
  | fresh now => exact inv_initGame now
  | move x y now k _ hstep ih => exact inv_continued _ _ x y now k ih hstep

/-! ## Session table lemmas -/

theorem find_map_replace (entries : List (String × Session)) (chatId : String)
    (game old : Session)
    (h : (entries.find? fun e => e.1 == chatId).map (fun e => e.2) = some old) :
    ((entries.map fun e => if e.1 == chatId then (chatId, game) else e).find?
      fun e => e.1 == chatId).map (fun e => e.2) = some game := by
  induction entries with
  | nil => simp at h
  | cons e rest ih =>
    by_cases he : e.1 = chatId
    · simp [List.find?_cons, he]
    · have hb : (e.1 == chatId) = false := by simpa using he
      simp only [List.find?_cons, hb] at h
      simp only [List.map_cons, hb, List.find?_cons, Bool.false_eq_true, if_false]
      exact ih h

theorem GameState.get_set_self (m : GameState) (chatId : String) (game : Session) :
    (m.set chatId game).get chatId = some game := by
  unfold GameState.set
  cases hg : m.get chatId with
  | some old =>
    have hhas : m.has chatId = true := by simp [GameState.has, hg]
    rw [if_pos hhas]
    exact find_map_replace m.entries chatId game old hg
  | none =>
    have hhas : m.has chatId = false := by simp [GameState.has, hg]
    have hnone : (m.entries.find? fun e => e.1 == chatId) = none := by
      simpa [GameState.get] using hg
    simp [hhas, GameState.get, List.find?_append, hnone]

theorem GameState.get_delete_self (m : GameState) (chatId : String) :
    (m.delete chatId).get chatId = none := by
  simp only [GameState.get, GameState.delete, Option.map_eq_none', List.find?_eq_none]
  intro e he
  have := (List.mem_filter.mp he).2
  simpa using this

theorem carreaux_move (gameState : GameState) (chatId : String) (game : Session)
    (x y : Int) (now : Nat) (hget : gameState.get chatId = some game) :
    carreaux gameState chatId (Command.move x y) now =
      match moveFlow game x y now with
      | MoveOutcome.threw after => (gameState.set chatId after, Reply.error)
      | MoveOutcome.rejected _ => (gameState, Reply.invalidMove x y)
      | MoveOutcome.won squaresFormed winner final =>
        (gameState.delete chatId,
          Reply.win squaresFormed winner final.score (getGameStats final now))
      | MoveOutcome.drawn squaresFormed final =>
        (gameState.delete chatId, Reply.draw squaresFormed final.score (getGameStats final now))
      | MoveOutcome.continued squaresFormed next =>
        (gameState.set chatId next, Reply.moved squaresFormed next.score next.turn) := by
  have hhas : gameState.has chatId = true := by simp [GameState.has, hget]
  simp only [carreaux, hhas, if_true, hget]

theorem gridFull_iff_moveCount (game : Session)
    (hwf : WellFormed game) (hcount : game.moveCount = occupied game.grid) :
    gridFull game.grid ↔ game.moveCount ≥ game.size * game.size := by
  have h1 := occupied_le game.grid
  have h2 := sum_lengths game.grid game.size hwf.2
  rw [hwf.1] at h2
  rw [← occupied_eq_iff, h2, hcount]
  rw [h2] at h1
  omega

theorem playMoves_reachable (now : Nat) (moves : List (Int × Int)) (game : Session)
    (h : Reachable game) : Reachable (playMoves now game moves) := by
  induction moves generalizing game with
  | nil => exact h
  | cons m rest ih =>
    obtain ⟨x, y⟩ := m
    unfold playMoves
    cases hm : moveFlow game x y now with
    | threw g => exact ih game h
    | rejected g => exact ih game h
    | won k w g => exact ih game h
    | drawn k g => exact ih game h
    | continued k next => exact ih next (Reachable.move x y now k h hm)

theorem moveFlow_continued_inv (game next : Session) (x y : Int) (now k : Nat)
    (h : moveFlow game x y now = MoveOutcome.continued k next) :
    isValidMove game x y = some true ∧
    checkSquares (placePiece game x y now) x y = some k ∧
    next.grid = (placePiece game x y now).grid ∧ next.size = game.size := by
  have hacc : isValidMove game x y = some true :=
    moveFlow_squaresFormed_accepted game x y now k (by rw [h]; rfl)
  cases hk : checkSquares (placePiece game x y now) x y with
  | none => simp [moveFlow, hacc, hk] at h
  | some j =>
    obtain ⟨h1, -, h3, h4, -⟩ := moveFlow_accepted game x y now j hacc hk
    rw [h] at h1 h3 h4
    simp only [MoveOutcome.squaresFormed, Option.some.injEq] at h1
    exact ⟨hacc, by rw [h1], h3, h4⟩

theorem isValidMove_invalid (game : Session) (x y : Int)
    (hbad : (x < 0 ∨ x ≥ game.size ∨ y < 0 ∨ y ≥ game.size) ∨
      ∃ p, readCell game.grid x y = Read.value (some p)) :
    isValidMove game x y = some false := by
  unfold isValidMove
  split
  · rfl
  · rename_i hr
    rcases hbad with hb | ⟨p, hp⟩
    · exact absurd hb hr
    · rw [hp]

theorem scored_other_lt (game : Session) (x y : Int) (now k : Nat) (hinv : Inv game) :
    (scoreUpdate (placePiece game x y now) k).score.of game.turn.other < WIN_SCORE := by
  have hs := (scoreUpdate_score (placePiece game x y now) k).2
  have hturn : (placePiece game x y now).turn = game.turn := rfl
  have hscore : (placePiece game x y now).score = game.score := rfl
  rw [hturn, hscore] at hs
  rw [hs]
  have h1 := hinv.scoreR
  have h2 := hinv.scoreB
  cases game.turn <;> simpa [Score.of, Player.other]

theorem moveFlow_not_accepted (game : Session) (x y : Int) (now : Nat)
    (h : isValidMove game x y ≠ some true) : (moveFlow game x y now).game = game := by
  unfold moveFlow
  cases hv : isValidMove game x y with
  | none => rfl
  | some b =>
    cases b with
    | false => rfl
    | true => exact absurd hv h

/-! ## Hint lemmas -/

theorem readCell_ne_typeError (grid : List (List Cell)) (x y : Int)
    (h0 : 0 ≤ y) (h1 : y < grid.length) : readCell grid x y ≠ Read.typeError := by
  obtain ⟨row, hrow, -⟩ := index_isSome grid y h0 h1
  unfold readCell
  rw [hrow]
  show (match index row x with
    | none => Read.undefined
    | some c => Read.value c) ≠ Read.typeError
  split <;> exact fun h => Read.noConfusion h

theorem mem_scanOrder (size : Nat) (c : Int × Int) (h : c ∈ scanOrder size) :
    0 ≤ c.2 ∧ c.2 < size := by
  simp only [scanOrder, List.mem_flatMap, List.mem_range, List.mem_map] at h
  obtain ⟨j, hj, i, -, rfl⟩ := h
  simp only
  omega

theorem hintsLoop_ok (player : Player) (cells : List (Int × Int)) (game : Session)
    (hints : List Hint) (hwf : WellFormed game)
    (hcells : ∀ c ∈ cells, 0 ≤ c.2 ∧ c.2 < game.size)
    (hpos : ∀ h ∈ hints, 0 < h.squares) :
    ∃ after found, hintsLoop player cells game hints = (after, some found) ∧
      ∀ h ∈ found, 0 < h.squares := by
  induction cells generalizing game hints with
  | nil => exact ⟨game, hints, rfl, hpos⟩
  | cons c rest ih =>
    obtain ⟨x, y⟩ := c
    have hy := hcells (x, y) (List.mem_cons_self _ _)
    have hrest : ∀ c ∈ rest, 0 ≤ c.2 ∧ c.2 < game.size :=
      fun c hc => hcells c (List.mem_cons_of_mem _ hc)
    have hne := readCell_ne_typeError game.grid x y hy.1 (by rw [hwf.1]; exact hy.2)
    unfold hintsLoop
    cases hr : readCell game.grid x y with
    | typeError => exact absurd hr hne
    | undefined => exact ih game hints hwf hrest hpos
    | value v =>
      cases v with
      | some p => exact ih game hints hwf hrest hpos
      | none =>
        have hwf1 : WellFormed { game with grid := writeCell game.grid x y (some player) } :=
          ⟨by simpa [writeCell_length] using hwf.1,
            writeCell_rows game.grid x y _ game.size hwf.2⟩
        have hwf2 : WellFormed { game with
            grid := writeCell (writeCell game.grid x y (some player)) x y none } :=
          ⟨by simpa [writeCell_length] using hwf.1,
            writeCell_rows _ x y _ game.size (writeCell_rows game.grid x y _ game.size hwf.2)⟩
        simp only [checkSquares_eq _ hwf1]
        exact ih _ _ hwf2 hrest (by
          intro h hh
          split_ifs at hh with hk
          · rcases List.mem_append.mp hh with hm | hm
            · exact hpos h hm
            · rw [List.mem_singleton.mp hm]
              exact hk
          · exact hpos h hh)

/-! ## Properties of the game -/

/-- C1: on a session with a size x size grid, `isValidMove` returns true exactly
when both coordinates lie in `[0, size)` and the cell `grid[y][x]` is `null`, and it
returns false in every other case (it never throws). -/
theorem isValidMove_iff (game : Session) (x y : Int) (hwf : WellFormed game) :
    (isValidMove game x y = some true ↔
      (0 ≤ x ∧ x < game.size ∧ 0 ≤ y ∧ y < game.size ∧
        readCell game.grid x y = Read.value none)) ∧
    (¬ (0 ≤ x ∧ x < game.size ∧ 0 ≤ y ∧ y < game.size ∧
        readCell game.grid x y = Read.value none) →
      isValidMove game x y = some false) := by
  by_cases hr : x < 0 ∨ x ≥ game.size ∨ y < 0 ∨ y ≥ game.size
  · have h : isValidMove game x y = some false := isValidMove_invalid game x y (Or.inl hr)
    refine ⟨?_, fun _ => h⟩
    rw [h]
    constructor
    · intro hc; cases hc
    · rintro ⟨a, b, c, d, _⟩; omega
  · have hx0 : 0 ≤ x := by omega
    have hx1 : x < game.size := by omega
    have hy0 : 0 ≤ y := by omega
    have hy1 : y < game.size := by omega
    obtain ⟨c, hc⟩ := readCell_wellFormed game hwf x y hx0 hx1 hy0 hy1
    cases c with
    | none =>
      have h : isValidMove game x y = some true := by simp [isValidMove, hr, hc]
      exact ⟨⟨fun _ => ⟨hx0, hx1, hy0, hy1, hc⟩, fun _ => h⟩,
        fun hn => absurd ⟨hx0, hx1, hy0, hy1, hc⟩ hn⟩
    | some p =>
      have h : isValidMove game x y = some false :=
        isValidMove_invalid game x y (Or.inr ⟨p, hc⟩)
      refine ⟨?_, fun _ => h⟩
      rw [h, hc]
      constructor
      · intro hc; cases hc
      · rintro ⟨_, _, _, _, e⟩; cases e

/-- Witness for C1: the cell (2, 3) of a fresh game. -/
theorem isValidMove_iff_witness :
    WellFormed (initGame 0) ∧
    ((isValidMove (initGame 0) 2 3 = some true ↔
      ((0 : Int) ≤ 2 ∧ (2 : Int) < (initGame 0).size ∧ (0 : Int) ≤ 3 ∧
        (3 : Int) < (initGame 0).size ∧
        readCell (initGame 0).grid 2 3 = Read.value none)) ∧
    (¬ ((0 : Int) ≤ 2 ∧ (2 : Int) < (initGame 0).size ∧ (0 : Int) ≤ 3 ∧
        (3 : Int) < (initGame 0).size ∧
        readCell (initGame 0).grid 2 3 = Read.value none) →
      isValidMove (initGame 0) 2 3 = some false)) :=
  ⟨by decide, isValidMove_iff (initGame 0) 2 3 (by decide)⟩

/-- C2: on a session with a size x size grid, an accepted move raises the mover's
score by exactly the value `checkSquares` returns right after the placement, leaves
the opponent's score as it was (so `score.R + score.B` grows by that value), and that
value lies between 0 and 4. -/
theorem move_score_increment (game : Session) (x y : Int) (now : Nat)
    (hwf : WellFormed game) (hacc : isValidMove game x y = some true) :
    ∃ k, checkSquares (placePiece game x y now) x y = some k ∧ k ≤ 4 ∧
      (moveFlow game x y now).squaresFormed = some k ∧
      (moveFlow game x y now).game.score.R + (moveFlow game x y now).game.score.B =
        game.score.R + game.score.B + k ∧
      (moveFlow game x y now).game.score.of game.turn = game.score.of game.turn + k ∧
      (moveFlow game x y now).game.score.of game.turn.other =
        game.score.of game.turn.other := by
  have hwfp := wellFormed_placePiece game x y now hwf
  obtain ⟨k, hk⟩ : ∃ k, checkSquares (placePiece game x y now) x y = some k :=
    ⟨_, checkSquares_eq (placePiece game x y now) hwfp x y⟩
  refine ⟨k, hk, checkSquares_le_four _ x y _ hk hwfp, ?_⟩
  obtain ⟨h1, h2, -⟩ := moveFlow_accepted game x y now _ hacc hk
  have hs := scoreUpdate_score (placePiece game x y now) k
  have hturn : (placePiece game x y now).turn = game.turn := rfl
  have hscore : (placePiece game x y now).score = game.score := rfl
  rw [hturn, hscore] at hs
  refine ⟨h1, ?_, by rw [h2]; exact hs.1, by rw [h2]; exact hs.2⟩
  rw [h2]
  have h3 := hs.1
  have h4 := hs.2
  cases ht : game.turn <;> simp only [ht, Score.of, Player.other] at h3 h4 <;> omega

/-- Witness for C2: two scoring moves. In the first game red plays (1, 1) and
completes three squares, going from 2 to 5 points while blue stays at 3; in the
third game blue plays (3, 1) and completes one square, going from 4 to 5 points
while red stays at 2. -/
theorem move_score_increment_witness :
    (checkSquares (placePiece (playMoves 0 (initGame 0) lastCellWins) 1 1 0) 1 1 = some 3 ∧
      (playMoves 0 (initGame 0) lastCellWins).turn = Player.R ∧
      (playMoves 0 (initGame 0) lastCellWins).score = { R := 2, B := 3 } ∧
      (moveFlow (playMoves 0 (initGame 0) lastCellWins) 1 1 0).game.score = { R := 5, B := 3 } ∧
      ∃ k, checkSquares (placePiece (playMoves 0 (initGame 0) lastCellWins) 1 1 0) 1 1 =
          some k ∧ k ≤ 4 ∧
        (moveFlow (playMoves 0 (initGame 0) lastCellWins) 1 1 0).squaresFormed = some k ∧
        (moveFlow (playMoves 0 (initGame 0) lastCellWins) 1 1 0).game.score.R +
            (moveFlow (playMoves 0 (initGame 0) lastCellWins) 1 1 0).game.score.B =
          (playMoves 0 (initGame 0) lastCellWins).score.R +
            (playMoves 0 (initGame 0) lastCellWins).score.B + k ∧
        (moveFlow (playMoves 0 (initGame 0) lastCellWins) 1 1 0).game.score.of
            (playMoves 0 (initGame 0) lastCellWins).turn =
          (playMoves 0 (initGame 0) lastCellWins).score.of
            (playMoves 0 (initGame 0) lastCellWins).turn + k ∧
        (moveFlow (playMoves 0 (initGame 0) lastCellWins) 1 1 0).game.score.of
            (playMoves 0 (initGame 0) lastCellWins).turn.other =
          (playMoves 0 (initGame 0) lastCellWins).score.of
            (playMoves 0 (initGame 0) lastCellWins).turn.other) ∧
    (checkSquares (placePiece (playMoves 0 (initGame 0) blueWins) 3 1 0) 3 1 = some 1 ∧
      (playMoves 0 (initGame 0) blueWins).turn = Player.B ∧
      (playMoves 0 (initGame 0) blueWins).score = { R := 2, B := 4 } ∧
      (moveFlow (playMoves 0 (initGame 0) blueWins) 3 1 0).game.score = { R := 2, B := 5 } ∧
      ∃ k, checkSquares (placePiece (playMoves 0 (initGame 0) blueWins) 3 1 0) 3 1 =
          some k ∧ k ≤ 4 ∧
        (moveFlow (playMoves 0 (initGame 0) blueWins) 3 1 0).squaresFormed = some k ∧
        (moveFlow (playMoves 0 (initGame 0) blueWins) 3 1 0).game.score.R +
            (moveFlow (playMoves 0 (initGame 0) blueWins) 3 1 0).game.score.B =
          (playMoves 0 (initGame 0) blueWins).score.R +
            (playMoves 0 (initGame 0) blueWins).score.B + k ∧
        (moveFlow (playMoves 0 (initGame 0) blueWins) 3 1 0).game.score.of
            (playMoves 0 (initGame 0) blueWins).turn =
          (playMoves 0 (initGame 0) blueWins).score.of
            (playMoves 0 (initGame 0) blueWins).turn + k ∧
        (moveFlow (playMoves 0 (initGame 0) blueWins) 3 1 0).game.score.of
            (playMoves 0 (initGame 0) blueWins).turn.other =
          (playMoves 0 (initGame 0) blueWins).score.of
            (playMoves 0 (initGame 0) blueWins).turn.other) :=
  ⟨⟨by decide, by decide, by decide, by decide,
      move_score_increment (playMoves 0 (initGame 0) lastCellWins) 1 1 0
        (by decide) (by decide)⟩,
    ⟨by decide, by decide, by decide, by decide,
      move_score_increment (playMoves 0 (initGame 0) blueWins) 3 1 0
        (by decide) (by decide)⟩⟩

/-- C3: for a session reachable through the move flow and an accepted move on it,
the handler removes the session from the table exactly when, after the move, a score
is at least the win score or every cell of the 5 x 5 grid is occupied; otherwise the
table keeps the session as the move left it. -/
theorem session_removed_iff (gameState : GameState) (chatId : String) (game : Session)
    (x y : Int) (now : Nat) (hget : gameState.get chatId = some game)
    (hreach : Reachable game) (hacc : isValidMove game x y = some true) :
    (moveFlow game x y now).game.size = 5 ∧ WellFormed (moveFlow game x y now).game ∧
    ((carreaux gameState chatId (Command.move x y) now).1.get chatId = none ↔
      gameOver (moveFlow game x y now).game) ∧
    (¬ gameOver (moveFlow game x y now).game →
      (carreaux gameState chatId (Command.move x y) now).1.get chatId =
        some (moveFlow game x y now).game) := by
  have hinv := inv_of_reachable game hreach
  obtain ⟨k, scored, -, hs, hcases⟩ := moveFlow_cases game x y now hinv.wf hacc
  obtain ⟨h1, h2, h3⟩ := inv_scored game x y now k hinv hacc
  rw [← hs] at h1 h2 h3
  have hfull := gridFull_iff_moveCount scored h2 h3
  rw [carreaux_move gameState chatId game x y now hget]
  rcases hcases with ⟨hw, hm⟩ | ⟨hw, hd, hm⟩ | ⟨hw, hd, hm⟩
  · have hover : gameOver scored := by
      rcases hw with hw | hw
      · exact Or.inl hw
      · exact Or.inr (Or.inl hw)
    rw [hm]
    simp only [MoveOutcome.game, GameState.get_delete_self, true_iff]
    exact ⟨h1, h2, hover, fun hn => absurd hover hn⟩
  · have hover : gameOver scored := Or.inr (Or.inr (hfull.mpr hd))
    rw [hm]
    simp only [MoveOutcome.game, GameState.get_delete_self, true_iff]
    exact ⟨h1, h2, hover, fun hn => absurd hover hn⟩
  · have hnot : ¬ gameOver
        { scored with turn := if scored.turn = Player.R then Player.B else Player.R } := by
      intro hover
      rcases hover with hr | hb | hf
      · exact hw (Or.inl hr)
      · exact hw (Or.inr hb)
      · exact hd (hfull.mp hf)
    rw [hm]
    show _ ∧ _ ∧ ((gameState.set chatId _).get chatId = none ↔ _) ∧
      (_ → (gameState.set chatId _).get chatId = _)
    rw [GameState.get_set_self]
    exact ⟨h1, h2, ⟨fun hc => Option.noConfusion hc, fun hover => absurd hover hnot⟩, fun _ => rfl⟩

/-- Witness for C3: three stored sessions. In the third game blue's move (3, 1)
brings blue to 5 points on a grid that is not full, and the session is removed; in
the checkerboard game the move (4, 4) fills the grid with both scores at 0, and the
session is removed; in a position reached after 6 moves the move (2, 2) neither wins
nor fills the grid, and the session is kept as the move left it. -/
theorem session_removed_iff_witness :
    ((moveFlow (playMoves 0 (initGame 0) blueWins) 3 1 0).game.score.B ≥ WIN_SCORE ∧
      ¬ gridFull (moveFlow (playMoves 0 (initGame 0) blueWins) 3 1 0).game.grid ∧
      (carreaux { entries := [("chat", playMoves 0 (initGame 0) blueWins)] } "chat"
        (Command.move 3 1) 0).1.get "chat" = none) ∧
    (gridFull (moveFlow (playMoves 0 (initGame 0) checkerboard) 4 4 0).game.grid ∧
      (moveFlow (playMoves 0 (initGame 0) checkerboard) 4 4 0).game.score = { R := 0, B := 0 } ∧
      (carreaux { entries := [("chat", playMoves 0 (initGame 0) checkerboard)] } "chat"
        (Command.move 4 4) 0).1.get "chat" = none) ∧
    (¬ gameOver (moveFlow (playMoves 0 (initGame 0)
        [(0, 0), (4, 4), (1, 0), (4, 3), (0, 1), (3, 3)]) 2 2 0).game ∧
      (carreaux { entries := [("chat", playMoves 0 (initGame 0)
          [(0, 0), (4, 4), (1, 0), (4, 3), (0, 1), (3, 3)])] } "chat"
        (Command.move 2 2) 0).1.get "chat" =
        some (moveFlow (playMoves 0 (initGame 0)
          [(0, 0), (4, 4), (1, 0), (4, 3), (0, 1), (3, 3)]) 2 2 0).game) :=
  ⟨⟨by decide, by decide,
      (session_removed_iff { entries := [("chat", playMoves 0 (initGame 0) blueWins)] } "chat"
        (playMoves 0 (initGame 0) blueWins) 3 1 0 (by decide)
        (playMoves_reachable 0 blueWins (initGame 0) (Reachable.fresh 0))
        (by decide)).2.2.1.mpr (by decide)⟩,
    ⟨by decide, by decide,
      (session_removed_iff { entries := [("chat", playMoves 0 (initGame 0) checkerboard)] }
        "chat" (playMoves 0 (initGame 0) checkerboard) 4 4 0 (by decide)
        (playMoves_reachable 0 checkerboard (initGame 0) (Reachable.fresh 0))
        (by decide)).2.2.1.mpr (by decide)⟩,
    ⟨by decide,
      (session_removed_iff { entries := [("chat", playMoves 0 (initGame 0)
          [(0, 0), (4, 4), (1, 0), (4, 3), (0, 1), (3, 3)])] } "chat"
        (playMoves 0 (initGame 0) [(0, 0), (4, 4), (1, 0), (4, 3), (0, 1), (3, 3)]) 2 2 0
        (by decide)
        (playMoves_reachable 0 [(0, 0), (4, 4), (1, 0), (4, 3), (0, 1), (3, 3)] (initGame 0)
          (Reachable.fresh 0))
        (by decide)).2.2.2 (by decide)⟩⟩

/-- C4: on a session with a size x size grid, an accepted move that does not end
the game leaves the session with the other marker on turn, and a rejected move
leaves the turn (and the whole session) as it was. -/
theorem turn_alternates (game : Session) (x y : Int) (now : Nat) (hwf : WellFormed game) :
    (isValidMove game x y = some true → (moveFlow game x y now).ended = false →
      (∃ k, moveFlow game x y now = MoveOutcome.continued k (moveFlow game x y now).game) ∧
      (moveFlow game x y now).game.turn = game.turn.other) ∧
    (isValidMove game x y = some false →
      moveFlow game x y now = MoveOutcome.rejected game ∧
      (moveFlow game x y now).game.turn = game.turn) := by
  constructor
  · intro hacc hend
    obtain ⟨k, scored, -, hs, hcases⟩ := moveFlow_cases game x y now hwf hacc
    have hturn : scored.turn = game.turn := by
      rw [hs, (scoreUpdate_frame (placePiece game x y now) k).2.2.1]
      rfl
    rcases hcases with ⟨-, hm⟩ | ⟨-, -, hm⟩ | ⟨-, -, hm⟩
    · rw [hm] at hend; cases hend
    · rw [hm] at hend; cases hend
    · rw [hm]
      refine ⟨⟨k, rfl⟩, ?_⟩
      show (if scored.turn = Player.R then Player.B else Player.R) = game.turn.other
      rw [hturn]
      cases game.turn <;> simp [Player.other]
  · intro hrej
    have hm : moveFlow game x y now = MoveOutcome.rejected game := by
      simp only [moveFlow, hrej]
    rw [hm]
    exact ⟨rfl, rfl⟩

/-- Witness for C4: on a fresh game the move (1, 1) is accepted and hands the turn
over, the move (9, 9) is rejected and leaves the turn where it was. -/
theorem turn_alternates_witness :
    WellFormed (initGame 0) ∧
    (isValidMove (initGame 0) 1 1 = some true ∧ (moveFlow (initGame 0) 1 1 7).ended = false ∧
      (∃ k, moveFlow (initGame 0) 1 1 7 =
        MoveOutcome.continued k (moveFlow (initGame 0) 1 1 7).game) ∧
      (moveFlow (initGame 0) 1 1 7).game.turn = (initGame 0).turn.other) ∧
    (isValidMove (initGame 0) 9 9 = some false ∧
      moveFlow (initGame 0) 9 9 7 = MoveOutcome.rejected (initGame 0) ∧
      (moveFlow (initGame 0) 9 9 7).game.turn = (initGame 0).turn) :=
  ⟨by decide,
    ⟨by decide, by decide,
      (turn_alternates (initGame 0) 1 1 7 (by decide)).1 (by decide) (by decide)⟩,
    ⟨by decide, (turn_alternates (initGame 0) 9 9 7 (by decide)).2 (by decide)⟩⟩

/-- C5: a move whose coordinates are out of range, or point at an occupied cell, is
rejected: the handler replies that the move is invalid and returns the session table
unchanged, so the session is still stored under its id with every field as before. -/
theorem invalid_move_rejected (gameState : GameState) (chatId : String) (game : Session)
    (x y : Int) (now : Nat) (hget : gameState.get chatId = some game)
    (hbad : (x < 0 ∨ x ≥ game.size ∨ y < 0 ∨ y ≥ game.size) ∨
      ∃ p, readCell game.grid x y = Read.value (some p)) :
    moveFlow game x y now = MoveOutcome.rejected game ∧
    carreaux gameState chatId (Command.move x y) now = (gameState, Reply.invalidMove x y) ∧
    (carreaux gameState chatId (Command.move x y) now).1.get chatId = some game := by
  have hrej := isValidMove_invalid game x y hbad
  have hm : moveFlow game x y now = MoveOutcome.rejected game := by
    simp only [moveFlow, hrej]
  have hc : carreaux gameState chatId (Command.move x y) now =
      (gameState, Reply.invalidMove x y) := by
    rw [carreaux_move gameState chatId game x y now hget, hm]
  exact ⟨hm, hc, by rw [hc]; exact hget⟩

/-- Witness for C5: after the move (1, 1) the same cell is occupied. -/
theorem invalid_move_rejected_witness :
    moveFlow (playMoves 0 (initGame 0) [(1, 1)]) 1 1 5 =
      MoveOutcome.rejected (playMoves 0 (initGame 0) [(1, 1)]) ∧
    carreaux { entries := [("chat", playMoves 0 (initGame 0) [(1, 1)])] } "chat"
        (Command.move 1 1) 5 =
      ({ entries := [("chat", playMoves 0 (initGame 0) [(1, 1)])] }, Reply.invalidMove 1 1) ∧
    (carreaux { entries := [("chat", playMoves 0 (initGame 0) [(1, 1)])] } "chat"
        (Command.move 1 1) 5).1.get "chat" = some (playMoves 0 (initGame 0) [(1, 1)]) :=
  invalid_move_rejected { entries := [("chat", playMoves 0 (initGame 0) [(1, 1)])] } "chat"
    (playMoves 0 (initGame 0) [(1, 1)]) 1 1 5 (by decide)
    (Or.inr ⟨Player.R, by decide⟩)

/-- C6: after a move at `(x, y)` that was accepted and did not end the game, the
same coordinates are no longer a valid move on the resulting session, whichever
marker is on turn, and the move flow rejects them. -/
theorem resubmit_rejected (game next : Session) (x y : Int) (now k : Nat)
    (h : moveFlow game x y now = MoveOutcome.continued k next) :
    isValidMove next x y = some false ∧
    (∀ turn, isValidMove { next with turn := turn } x y = some false) ∧
    ∀ later, moveFlow next x y later = MoveOutcome.rejected next := by
  obtain ⟨hacc, -, hgrid, -⟩ := moveFlow_continued_inv game next x y now k h
  have hread := (isValidMove_true game x y hacc).2.2.2.2
  have hnew : readCell next.grid x y = Read.value (some game.turn) := by
    rw [hgrid]
    exact readCell_writeCell_self game.grid x y none (some game.turn) hread
  have hrej : isValidMove next x y = some false :=
    isValidMove_invalid next x y (Or.inr ⟨game.turn, hnew⟩)
  refine ⟨hrej, fun turn => ?_, fun later => ?_⟩
  · exact isValidMove_invalid _ x y (Or.inr ⟨game.turn, hnew⟩)
  · simp only [moveFlow, hrej]

/-- Witness for C6: the first move of a fresh game, at (3, 4). -/
theorem resubmit_rejected_witness :
    isValidMove (moveFlow (initGame 0) 3 4 1).game 3 4 = some false ∧
    (∀ turn, isValidMove { (moveFlow (initGame 0) 3 4 1).game with turn := turn } 3 4 =
      some false) ∧
    ∀ later, moveFlow (moveFlow (initGame 0) 3 4 1).game 3 4 later =
      MoveOutcome.rejected (moveFlow (initGame 0) 3 4 1).game :=
  resubmit_rejected (initGame 0) (moveFlow (initGame 0) 3 4 1).game 3 4 1 0 (by decide)

/-- C7: on a session with a size x size grid, `checkSquares(game, x, y)` returns the
number of 2x2 sub-squares that lie inside the grid, contain the cell `(x, y)` and
have all four cells equal to the marker on turn, each such sub-square counted once;
this holds at every in-range cell (and at every other integer pair as well). -/
theorem checkSquares_counts (game : Session) (x y : Int) (hwf : WellFormed game) :
    checkSquares game x y = some (countSquaresAt game x y) := by
  rw [checkSquares_eq game hwf, countP_checkPositions]

/-- Witness for C7: red holds (0, 0), (1, 0), (0, 1) and has just been placed on
(1, 1), which completes exactly one square. -/
theorem checkSquares_counts_witness :
    WellFormed (placePiece (playMoves 0 (initGame 0)
      [(0, 0), (4, 4), (1, 0), (4, 3), (0, 1), (3, 3)]) 1 1 0) ∧
    checkSquares (placePiece (playMoves 0 (initGame 0)
      [(0, 0), (4, 4), (1, 0), (4, 3), (0, 1), (3, 3)]) 1 1 0) 1 1 =
      some (countSquaresAt (placePiece (playMoves 0 (initGame 0)
        [(0, 0), (4, 4), (1, 0), (4, 3), (0, 1), (3, 3)]) 1 1 0) 1 1) ∧
    countSquaresAt (placePiece (playMoves 0 (initGame 0)
      [(0, 0), (4, 4), (1, 0), (4, 3), (0, 1), (3, 3)]) 1 1 0) 1 1 = 1 :=
  ⟨by decide,
    checkSquares_counts (placePiece (playMoves 0 (initGame 0)
      [(0, 0), (4, 4), (1, 0), (4, 3), (0, 1), (3, 3)]) 1 1 0) 1 1 (by decide),
    by decide⟩

/-- C8: on a session with a size x size grid and an accepted move, when a score is at
least the win score after the move the flow declares a winner, also when the move
counter has reached size * size at the same time; a draw is declared only when the
move counter has reached size * size and both scores are below the win score. -/
theorem win_before_draw (game : Session) (x y : Int) (now : Nat)
    (hwf : WellFormed game) (hacc : isValidMove game x y = some true) :
    (((moveFlow game x y now).game.score.R ≥ WIN_SCORE ∨
        (moveFlow game x y now).game.score.B ≥ WIN_SCORE) →
      ∃ k winner, moveFlow game x y now =
        MoveOutcome.won k winner (moveFlow game x y now).game) ∧
    (∀ k final, moveFlow game x y now = MoveOutcome.drawn k final →
      final.moveCount ≥ final.size * final.size ∧
      final.score.R < WIN_SCORE ∧ final.score.B < WIN_SCORE) := by
  obtain ⟨k, scored, -, -, hcases⟩ := moveFlow_cases game x y now hwf hacc
  rcases hcases with ⟨hw, hm⟩ | ⟨hw, hd, hm⟩ | ⟨hw, hd, hm⟩
  · rw [hm]
    exact ⟨fun _ => ⟨k, _, rfl⟩, fun j final hj => MoveOutcome.noConfusion hj⟩
  · rw [hm]
    refine ⟨fun h => absurd h hw, fun j final hj => ?_⟩
    injection hj with _ hfinal
    subst hfinal
    exact ⟨hd, by omega, by omega⟩
  · rw [hm]
    exact ⟨fun h => absurd h hw, fun j final hj => MoveOutcome.noConfusion hj⟩

/-- Witness for C8: in the first game the 25th move fills the grid and brings red to
5 points, and a winner is declared; in the checkerboard game the 25th move fills the
grid with both scores at 0, and the game is drawn. -/
theorem win_before_draw_witness :
    (((moveFlow (playMoves 0 (initGame 0) lastCellWins) 1 1 0).game.score.R ≥ WIN_SCORE ∧
        (moveFlow (playMoves 0 (initGame 0) lastCellWins) 1 1 0).game.moveCount = 25) ∧
      ∃ k winner, moveFlow (playMoves 0 (initGame 0) lastCellWins) 1 1 0 =
        MoveOutcome.won k winner
          (moveFlow (playMoves 0 (initGame 0) lastCellWins) 1 1 0).game) ∧
    (moveFlow (playMoves 0 (initGame 0) checkerboard) 4 4 0 =
        MoveOutcome.drawn 0 (moveFlow (playMoves 0 (initGame 0) checkerboard) 4 4 0).game ∧
      (moveFlow (playMoves 0 (initGame 0) checkerboard) 4 4 0).game.moveCount ≥
        (moveFlow (playMoves 0 (initGame 0) checkerboard) 4 4 0).game.size *
          (moveFlow (playMoves 0 (initGame 0) checkerboard) 4 4 0).game.size ∧
      (moveFlow (playMoves 0 (initGame 0) checkerboard) 4 4 0).game.score.R < WIN_SCORE ∧
      (moveFlow (playMoves 0 (initGame 0) checkerboard) 4 4 0).game.score.B < WIN_SCORE) :=
  ⟨⟨⟨by decide, by decide⟩,
      (win_before_draw (playMoves 0 (initGame 0) lastCellWins) 1 1 0
        (by decide) (by decide)).1 (Or.inl (by decide))⟩,
    ⟨by decide,
      (win_before_draw (playMoves 0 (initGame 0) checkerboard) 4 4 0
        (by decide) (by decide)).2 0 _ (by decide)⟩⟩

/-- C9: for a session reachable through the move flow, a move that ends the game by
a win announces the player who made the move, whose score is then at least the win
score while the other player's is below it; the two scores are never both at least
the win score, neither before nor after a move. -/
theorem winner_is_mover (game : Session) (x y : Int) (now : Nat) (hreach : Reachable game) :
    (∀ k winner final, moveFlow game x y now = MoveOutcome.won k winner final →
      winner = game.turn ∧ final.score.of game.turn ≥ WIN_SCORE ∧
      final.score.of game.turn.other < WIN_SCORE) ∧
    ¬ (game.score.R ≥ WIN_SCORE ∧ game.score.B ≥ WIN_SCORE) ∧
    ¬ ((moveFlow game x y now).game.score.R ≥ WIN_SCORE ∧
      (moveFlow game x y now).game.score.B ≥ WIN_SCORE) := by
  have hinv := inv_of_reachable game hreach
  have hR := hinv.scoreR
  have hB := hinv.scoreB
  by_cases hacc : isValidMove game x y = some true
  · obtain ⟨k, scored, -, hs, hcases⟩ := moveFlow_cases game x y now hinv.wf hacc
    have hother := scored_other_lt game x y now k hinv
    rw [← hs] at hother
    have hboth : ¬ (scored.score.R ≥ WIN_SCORE ∧ scored.score.B ≥ WIN_SCORE) := by
      intro hb
      cases ht : game.turn <;> simp only [ht, Score.of, Player.other] at hother <;> omega
    refine ⟨?_, by omega, ?_⟩
    · intro j winner final hwon
      rcases hcases with ⟨hw, hm⟩ | ⟨-, -, hm⟩ | ⟨-, -, hm⟩
      · rw [hm] at hwon
        injection hwon with _ hwinner hfinal
        subst hfinal
        subst hwinner
        refine ⟨?_, ?_, hother⟩
        · cases ht : game.turn <;> simp only [ht, Score.of, Player.other] at hother
          · have : scored.score.R ≥ WIN_SCORE := by omega
            simp [this]
          · have : ¬ scored.score.R ≥ WIN_SCORE := by omega
            simp [this]
        · cases ht : game.turn <;> simp only [ht, Score.of, Player.other] at hother ⊢ <;> omega
      · rw [hm] at hwon; cases hwon
      · rw [hm] at hwon; cases hwon
    · rcases hcases with ⟨-, hm⟩ | ⟨-, -, hm⟩ | ⟨-, -, hm⟩ <;> rw [hm] <;> exact hboth
  · have hsame := moveFlow_not_accepted game x y now hacc
    refine ⟨?_, by omega, by rw [hsame]; omega⟩
    intro j winner final hwon
    have := moveFlow_squaresFormed_accepted game x y now j (by rw [hwon]; rfl)
    exact absurd this hacc

/-- Witness for C9: after the 21 moves of the third game blue plays (3, 1), reaches
5 points against red's 2 and is announced as the winner. -/
theorem winner_is_mover_witness :
    moveFlow (playMoves 0 (initGame 0) blueWins) 3 1 0 =
      MoveOutcome.won 1 Player.B (moveFlow (playMoves 0 (initGame 0) blueWins) 3 1 0).game ∧
    Player.B = (playMoves 0 (initGame 0) blueWins).turn ∧
    (moveFlow (playMoves 0 (initGame 0) blueWins) 3 1 0).game.score.of
      (playMoves 0 (initGame 0) blueWins).turn ≥ WIN_SCORE ∧
    (moveFlow (playMoves 0 (initGame 0) blueWins) 3 1 0).game.score.of
      (playMoves 0 (initGame 0) blueWins).turn.other < WIN_SCORE :=
  ⟨by decide,
    (winner_is_mover (playMoves 0 (initGame 0) blueWins) 3 1 0
      (playMoves_reachable 0 blueWins (initGame 0) (Reachable.fresh 0))).1 1 Player.B _
      (by decide)⟩

/-- C10: on a session with a size x size grid, `getHints` returns a list that has no
entry with a square count of 0, is sorted by descending square count and has at
most 3 entries. -/
theorem getHints_spec (game : Session) (hwf : WellFormed game) :
    ∃ hints, (getHints game).2 = some hints ∧
      (∀ h ∈ hints, h.squares ≠ 0) ∧
      hints.Sorted (fun a b => a.squares ≥ b.squares) ∧
      hints.length ≤ 3 := by
  obtain ⟨after, found, hloop, hpos⟩ :=
    hintsLoop_ok game.turn (scanOrder game.size) game [] hwf
      (fun c hc => mem_scanOrder game.size c hc) (fun h hh => by cases hh)
  refine ⟨(found.insertionSort hintOrder).take 3, ?_, ?_, ?_, ?_⟩
  · simp only [getHints, hloop]
  · intro h hh
    have hmem := (List.mem_insertionSort hintOrder).mp (List.mem_of_mem_take hh)
    exact Nat.pos_iff_ne_zero.mp (hpos h hmem)
  · have hsorted : (found.insertionSort hintOrder).Sorted hintOrder :=
      List.sorted_insertionSort hintOrder found
    exact List.Pairwise.sublist (List.take_sublist 3 _) hsorted
  · exact List.length_take_le 3 _

/-- Witness for C10: a position in which red can complete a square at (1, 1). -/
theorem getHints_spec_witness :
    WellFormed (playMoves 0 (initGame 0) [(0, 0), (4, 4), (1, 0), (4, 3), (0, 1), (3, 3)]) ∧
    (getHints (playMoves 0 (initGame 0)
      [(0, 0), (4, 4), (1, 0), (4, 3), (0, 1), (3, 3)])).2 =
        some [{ x := 1, y := 1, squares := 1 }] ∧
    ∃ hints, (getHints (playMoves 0 (initGame 0)
        [(0, 0), (4, 4), (1, 0), (4, 3), (0, 1), (3, 3)])).2 = some hints ∧
      (∀ h ∈ hints, h.squares ≠ 0) ∧
      hints.Sorted (fun a b => a.squares ≥ b.squares) ∧
      hints.length ≤ 3 :=
  ⟨by decide, by decide,
    getHints_spec (playMoves 0 (initGame 0) [(0, 0), (4, 4), (1, 0), (4, 3), (0, 1), (3, 3)])
      (by decide)⟩

/-! ## Writing one cell leaves the others alone -/

theorem set_getElem?_self {α : Type} (l : List α) (i : Nat) (a : α) (h : l[i]? = some a) :
    l.set i a = l := by
  induction l generalizing i with
  | nil => rfl
  | cons b rest ih =>
    cases i with
    | zero =>
      simp only [List.getElem?_cons_zero, Option.some.injEq] at h
      rw [List.set_cons_zero, h]
    | succ j =>
      simp only [List.getElem?_cons_succ] at h
      rw [List.set_cons_succ, ih j h]

theorem index_set_ne {α : Type} (l : List α) (i j : Int) (a : α) (hj : 0 ≤ j) (hne : i ≠ j) :
    index (l.set j.toNat a) i = index l i := by
  unfold index
  by_cases hi : 0 ≤ i
  · have hnat : j.toNat ≠ i.toNat := by omega
    simp only [hi, if_true, List.getElem?_set_ne hnat]
  · simp only [hi, if_false]

theorem index_set_self {α : Type} (l : List α) (j : Int) (a b : α) (h : index l j = some b) :
    index (l.set j.toNat a) j = some a := by
  obtain ⟨hj, hget⟩ := index_eq_some l j b h
  have hlt : j.toNat < l.length := (List.getElem?_eq_some_iff.mp hget).1
  simp [index, hj, List.getElem?_set, hlt]

theorem readCell_writeCell_ne (grid : List (List Cell)) (x y x2 y2 : Int) (v : Cell)
    (hne : (x2, y2) ≠ (x, y)) :
    readCell (writeCell grid x y v) x2 y2 = readCell grid x2 y2 := by
  unfold writeCell
  cases hrow : index grid y with
  | none => rfl
  | some row =>
    by_cases hx : 0 ≤ x
    · simp only [hx, if_true]
      have hy := (index_eq_some grid y row hrow).1
      by_cases hy2 : y2 = y
      · subst hy2
        have hx2 : x2 ≠ x := fun h => hne (by rw [h])
        unfold readCell
        rw [index_set_self grid y2 _ row hrow, hrow]
        simp only [index_set_ne row x2 x v hx hx2]
      · unfold readCell
        rw [index_set_ne grid y2 y _ hy hy2]
    · simp only [hx, if_false]

theorem writeCell_revert (grid : List (List Cell)) (x y : Int) (c v : Cell)
    (h : readCell grid x y = Read.value c) :
    writeCell (writeCell grid x y v) x y c = grid := by
  obtain ⟨row, hrow, hc⟩ := readCell_eq_value grid x y c h
  obtain ⟨hy, hgy⟩ := index_eq_some _ _ _ hrow
  obtain ⟨hx, hgx⟩ := index_eq_some _ _ _ hc
  have h1 : writeCell grid x y v = grid.set y.toNat (row.set x.toNat v) := by
    simp only [writeCell, hrow, hx, if_true]
  have h2 : index (grid.set y.toNat (row.set x.toNat v)) y = some (row.set x.toNat v) :=
    index_set_self grid y _ row hrow
  rw [h1]
  simp only [writeCell, h2, hx, if_true, List.set_set]
  rw [set_getElem?_self row x.toNat c hgx, set_getElem?_self grid y.toNat row hgy]

/-- C14: when `isValidMove(game, x, y)` is true, `placePiece` writes the marker on
turn into the cell `(x, y)`, leaves every other cell as it was, records the move in
`lastMove`, adds one to `moveCount`, and leaves turn, score, size and start time
unchanged. -/
theorem placePiece_frame (game : Session) (x y : Int) (now : Nat)
    (hacc : isValidMove game x y = some true) :
    readCell (placePiece game x y now).grid x y = Read.value (some game.turn) ∧
    (∀ x2 y2 : Int, (x2, y2) ≠ (x, y) →
      readCell (placePiece game x y now).grid x2 y2 = readCell game.grid x2 y2) ∧
    (placePiece game x y now).lastMove = some { x := x, y := y, player := game.turn } ∧
    (placePiece game x y now).moveCount = game.moveCount + 1 ∧
    (placePiece game x y now).turn = game.turn ∧
    (placePiece game x y now).score = game.score ∧
    (placePiece game x y now).size = game.size ∧
    (placePiece game x y now).startTime = game.startTime ∧
    (placePiece game x y now).lastActivity = now := by
  have hread := (isValidMove_true game x y hacc).2.2.2.2
  refine ⟨readCell_writeCell_self game.grid x y none _ hread, ?_, rfl, rfl, rfl, rfl, rfl,
    rfl, rfl⟩
  intro x2 y2 hne
  exact readCell_writeCell_ne game.grid x y x2 y2 _ hne

/-- Witness for C14: the first move of a fresh game, at (2, 1). -/
theorem placePiece_frame_witness :
    readCell (placePiece (initGame 0) 2 1 9).grid 2 1 = Read.value (some (initGame 0).turn) ∧
    (∀ x2 y2 : Int, (x2, y2) ≠ (2, 1) →
      readCell (placePiece (initGame 0) 2 1 9).grid x2 y2 =
        readCell (initGame 0).grid x2 y2) ∧
    (placePiece (initGame 0) 2 1 9).lastMove =
      some { x := 2, y := 1, player := (initGame 0).turn } ∧
    (placePiece (initGame 0) 2 1 9).moveCount = (initGame 0).moveCount + 1 ∧
    (placePiece (initGame 0) 2 1 9).turn = (initGame 0).turn ∧
    (placePiece (initGame 0) 2 1 9).score = (initGame 0).score ∧
    (placePiece (initGame 0) 2 1 9).size = (initGame 0).size ∧
    (placePiece (initGame 0) 2 1 9).startTime = (initGame 0).startTime ∧
    (placePiece (initGame 0) 2 1 9).lastActivity = 9 :=
  placePiece_frame (initGame 0) 2 1 9 (by decide)

/-! ## Hints leave the session alone -/

theorem revert_eq (game : Session) (x y : Int) (v : Cell)
    (h : readCell game.grid x y = Read.value none) :
    { game with grid := writeCell (writeCell game.grid x y v) x y none } = game := by
  rw [writeCell_revert game.grid x y none v h]

theorem hintsLoop_after (player : Player) (cells : List (Int × Int)) (game : Session)
    (hints : List Hint) :
    ((hintsLoop player cells game hints).2.isSome = true →
      (hintsLoop player cells game hints).1 = game) ∧
    ((hintsLoop player cells game hints).1 = game ∨
      ∃ x y, readCell game.grid x y = Read.value none ∧
        (hintsLoop player cells game hints).1 =
          { game with grid := writeCell game.grid x y (some player) }) := by
  induction cells generalizing hints with
  | nil => exact ⟨fun _ => rfl, Or.inl rfl⟩
  | cons c rest ih =>
    obtain ⟨x, y⟩ := c
    unfold hintsLoop
    cases hr : readCell game.grid x y with
    | typeError => exact ⟨fun h => Bool.noConfusion h, Or.inl rfl⟩
    | undefined => exact ih hints
    | value v =>
      cases v with
      | some p => exact ih hints
      | none =>
        simp only
        cases hk : checkSquares { game with grid := writeCell game.grid x y (some player) } x y with
        | none => exact ⟨fun h => Bool.noConfusion h, Or.inr ⟨x, y, hr, rfl⟩⟩
        | some k =>
          simp only
          rw [revert_eq game x y (some player) hr]
          exact ih _

theorem getHints_after (game : Session) :
    ((getHints game).2.isSome = true → (getHints game).1 = game) ∧
    ((getHints game).1 = game ∨
      ∃ x y, readCell game.grid x y = Read.value none ∧
        (getHints game).1 = { game with grid := writeCell game.grid x y (some game.turn) }) := by
  have h := hintsLoop_after game.turn (scanOrder game.size) game []
  cases hl : hintsLoop game.turn (scanOrder game.size) game [] with
  | mk after r =>
    rw [hl] at h
    cases r with
    | none =>
      have hg : getHints game = (after, none) := by simp only [getHints, hl]
      rw [hg]
      exact ⟨fun hs => Bool.noConfusion hs, h.2⟩
    | some found =>
      have hg : getHints game =
          (after, some ((found.insertionSort hintOrder).take 3)) := by
        simp only [getHints, hl]
      rw [hg]
      exact ⟨fun _ => h.1 rfl, h.2⟩

theorem getHints_returns (game : Session) (hwf : WellFormed game) :
    ∃ hints, (getHints game).2 = some hints := by
  obtain ⟨after, found, hloop, -⟩ :=
    hintsLoop_ok game.turn (scanOrder game.size) game [] hwf
      (fun c hc => mem_scanOrder game.size c hc) (fun h hh => by cases hh)
  exact ⟨(found.insertionSort hintOrder).take 3, by simp only [getHints, hloop]⟩

/-- C11: whenever `getHints` returns, the session is exactly what it was before the
call (every grid cell, score, turn, moveCount, lastMove and the timestamps); and on
a session with a size x size grid it does return. -/
theorem getHints_frame (game : Session) :
    (∀ hints, (getHints game).2 = some hints → (getHints game).1 = game) ∧
    (WellFormed game → ∃ hints, getHints game = (game, some hints)) := by
  have hafter := (getHints_after game).1
  refine ⟨fun hints h => hafter (by rw [h]; rfl), fun hwf => ?_⟩
  obtain ⟨hints, hsome⟩ := getHints_returns game hwf
  refine ⟨hints, ?_⟩
  have h1 := hafter (by rw [hsome]; rfl)
  exact Prod.ext h1 hsome

/-- Witness for C11: a position in which red can complete a square at (1, 1), so
that the simulation does write to the grid. -/
theorem getHints_frame_witness :
    (getHints (playMoves 0 (initGame 0)
      [(0, 0), (4, 4), (1, 0), (4, 3), (0, 1), (3, 3)])).2 =
        some [{ x := 1, y := 1, squares := 1 }] ∧
    (getHints (playMoves 0 (initGame 0) [(0, 0), (4, 4), (1, 0), (4, 3), (0, 1), (3, 3)])).1 =
      playMoves 0 (initGame 0) [(0, 0), (4, 4), (1, 0), (4, 3), (0, 1), (3, 3)] ∧
    ∃ hints, getHints (playMoves 0 (initGame 0)
        [(0, 0), (4, 4), (1, 0), (4, 3), (0, 1), (3, 3)]) =
      (playMoves 0 (initGame 0) [(0, 0), (4, 4), (1, 0), (4, 3), (0, 1), (3, 3)], some hints) :=
  ⟨by decide,
    (getHints_frame (playMoves 0 (initGame 0)
      [(0, 0), (4, 4), (1, 0), (4, 3), (0, 1), (3, 3)])).1
      [{ x := 1, y := 1, squares := 1 }] (by decide),
    (getHints_frame (playMoves 0 (initGame 0)
      [(0, 0), (4, 4), (1, 0), (4, 3), (0, 1), (3, 3)])).2 (by decide)⟩

/-! ## Occupied cells stay occupied -/

theorem keeps_writeCell (grid : List (List Cell)) (x y x2 y2 : Int) (v : Cell) (p : Player)
    (hnull : readCell grid x y = Read.value none)
    (hocc : readCell grid x2 y2 = Read.value (some p)) :
    readCell (writeCell grid x y v) x2 y2 = Read.value (some p) := by
  have hne : (x2, y2) ≠ (x, y) := by
    intro h
    injection h with h1 h2
    rw [h1, h2, hnull] at hocc
    cases hocc
  rw [readCell_writeCell_ne grid x y x2 y2 v hne, hocc]

theorem moveFlow_grid (game : Session) (x y : Int) (now : Nat) :
    (moveFlow game x y now).game.grid = game.grid ∨
    (readCell game.grid x y = Read.value none ∧
      (moveFlow game x y now).game.grid = writeCell game.grid x y (some game.turn)) := by
  by_cases hacc : isValidMove game x y = some true
  · right
    refine ⟨(isValidMove_true game x y hacc).2.2.2.2, ?_⟩
    cases hk : checkSquares (placePiece game x y now) x y with
    | none =>
      have hm : moveFlow game x y now = MoveOutcome.threw (placePiece game x y now) := by
        simp only [moveFlow, hacc, hk]
      rw [hm]
      rfl
    | some k => exact (moveFlow_accepted game x y now k hacc hk).2.2.1
  · left
    rw [moveFlow_not_accepted game x y now hacc]

theorem moveFlow_table (gameState : GameState) (chatId : String) (game after : Session)
    (x y : Int) (now : Nat) (hget : gameState.get chatId = some game)
    (h : (carreaux gameState chatId (Command.move x y) now).1.get chatId = some after) :
    after = game ∨ after = (moveFlow game x y now).game := by
  rw [carreaux_move gameState chatId game x y now hget] at h
  cases hm : moveFlow game x y now with
  | threw g =>
    rw [hm] at h
    simp only [GameState.get_set_self, Option.some.injEq] at h
    exact Or.inr h.symm
  | rejected g =>
    rw [hm] at h
    simp only [hget, Option.some.injEq] at h
    exact Or.inl h.symm
  | won k w g =>
    rw [hm] at h
    simp only [GameState.get_delete_self] at h
    cases h
  | drawn k g =>
    rw [hm] at h
    simp only [GameState.get_delete_self] at h
    cases h
  | continued k g =>
    rw [hm] at h
    simp only [GameState.get_set_self, Option.some.injEq] at h
    exact Or.inr h.symm

/-- C13: whatever command other than a new game is handled on a stored session
(a move, accepted or rejected, a hint, the board, the stats, the help), if the
session is still stored afterwards then every cell that held a marker before the
command holds the same marker after it. -/
theorem occupied_cells_kept (gameState : GameState) (chatId : String) (game : Session)
    (command : Command) (now : Nat) (hget : gameState.get chatId = some game)
    (hcmd : command ≠ Command.start) :
    ∀ after, (carreaux gameState chatId command now).1.get chatId = some after →
      ∀ (x y : Int) (p : Player), readCell game.grid x y = Read.value (some p) →
        readCell after.grid x y = Read.value (some p) := by
  have hhas : gameState.has chatId = true := by simp [GameState.has, hget]
  intro after hafter x y p hocc
  cases command with
  | start => exact absurd rfl hcmd
  | board =>
    simp only [carreaux, hhas, if_true, hget, Option.some.injEq] at hafter
    rw [← hafter]; exact hocc
  | stats =>
    simp only [carreaux, hhas, if_true, hget, Option.some.injEq] at hafter
    rw [← hafter]; exact hocc
  | help =>
    simp only [carreaux, hhas, if_true, hget, Option.some.injEq] at hafter
    rw [← hafter]; exact hocc
  | unknown =>
    simp only [carreaux, hhas, if_true, hget, Option.some.injEq] at hafter
    rw [← hafter]; exact hocc
  | quit =>
    simp only [carreaux, hhas, if_true, hget, GameState.get_delete_self] at hafter
    cases hafter
  | hint =>
    have hset : after = (getHints game).1 := by
      simp only [carreaux, hhas, if_true, hget] at hafter
      cases hg : getHints game with
      | mk s r =>
        rw [hg] at hafter
        cases r with
        | none =>
          simp only [GameState.get_set_self, Option.some.injEq] at hafter
          exact hafter.symm
        | some hints =>
          simp only at hafter
          split_ifs at hafter <;>
            simp only [GameState.get_set_self, Option.some.injEq] at hafter <;>
            exact hafter.symm
    rcases (getHints_after game).2 with hsame | ⟨cx, cy, hnull, hsim⟩
    · rw [hset, hsame]; exact hocc
    · rw [hset, hsim]
      exact keeps_writeCell game.grid cx cy x y _ p hnull hocc
  | move mx my =>
    rcases moveFlow_table gameState chatId game after mx my now hget hafter with h | h
    · rw [h]; exact hocc
    · rw [h]
      rcases moveFlow_grid game mx my now with hg | ⟨hnull, hg⟩
      · rw [hg]; exact hocc
      · rw [hg]
        exact keeps_writeCell game.grid mx my x y _ p hnull hocc

/-- Witness for C13: red holds (1, 1); after blue's move at (2, 2), and after a hint
request, the cell (1, 1) still holds red's marker. -/
theorem occupied_cells_kept_witness :
    readCell (moveFlow (playMoves 0 (initGame 0) [(1, 1)]) 2 2 5).game.grid 1 1 =
      Read.value (some Player.R) ∧
    readCell (getHints (playMoves 0 (initGame 0) [(1, 1)])).1.grid 1 1 =
      Read.value (some Player.R) :=
  ⟨occupied_cells_kept { entries := [("chat", playMoves 0 (initGame 0) [(1, 1)])] } "chat"
      (playMoves 0 (initGame 0) [(1, 1)]) (Command.move 2 2) 5 (by decide) (by decide)
      (moveFlow (playMoves 0 (initGame 0) [(1, 1)]) 2 2 5).game (by decide)
      1 1 Player.R (by decide),
    occupied_cells_kept { entries := [("chat", playMoves 0 (initGame 0) [(1, 1)])] } "chat"
      (playMoves 0 (initGame 0) [(1, 1)]) Command.hint 5 (by decide) (by decide)
      (getHints (playMoves 0 (initGame 0) [(1, 1)])).1 (by decide)
      1 1 Player.R (by decide)⟩

/-! ## More session table lemmas -/

theorem find_map_replace_other (entries : List (String × Session)) (chatId other : String)
    (game : Session) (hne : other ≠ chatId) :
    ((entries.map fun e => if e.1 == chatId then (chatId, game) else e).find?
      fun e => e.1 == other) = (entries.find? fun e => e.1 == other) := by
  induction entries with
  | nil => rfl
  | cons e rest ih =>
    by_cases he : e.1 = chatId
    · have h1 : (chatId == other) = false := by
        simpa using fun h : chatId = other => hne h.symm
      simp only [List.map_cons, he, beq_self_eq_true, if_true, List.find?_cons, h1]
      exact ih
    · have hb : (e.1 == chatId) = false := by simpa using he
      simp only [List.map_cons, hb, Bool.false_eq_true, if_false, List.find?_cons]
      rw [ih]

theorem GameState.get_set_other (m : GameState) (chatId other : String) (game : Session)
    (hne : other ≠ chatId) : (m.set chatId game).get other = m.get other := by
  unfold GameState.set
  by_cases hhas : m.has chatId = true
  · rw [if_pos hhas]
    simp only [GameState.get, find_map_replace_other m.entries chatId other game hne]
  · rw [if_neg hhas]
    have h1 : (chatId == other) = false := by
      simpa using fun h : chatId = other => hne h.symm
    simp [GameState.get, List.find?_append, h1]

theorem find_filter_unique (l : List (String × Session)) (chatId : String)
    (keep : String × Session → Bool) (hkeys : (l.map fun e => e.1).Nodup) :
    (l.filter keep).find? (fun e => e.1 == chatId) =
      (l.find? fun e => e.1 == chatId).filter keep := by
  induction l with
  | nil => rfl
  | cons e rest ih =>
    simp only [List.map_cons, List.nodup_cons] at hkeys
    obtain ⟨hnot, hrest⟩ := hkeys
    by_cases hp : e.1 = chatId
    · have hpb : (e.1 == chatId) = true := by simpa using hp
      have hnone : ∀ (l2 : List (String × Session)), (∀ a ∈ l2, a ∈ rest) →
          l2.find? (fun a => a.1 == chatId) = none := by
        intro l2 hsub
        rw [List.find?_eq_none]
        intro a ha hk
        have hk2 : a.1 = chatId := by simpa using hk
        exact hnot (List.mem_map.mpr ⟨a, hsub a ha, by rw [hk2, hp]⟩)
      cases hq : keep e with
      | true =>
        simp [List.filter_cons, hq, List.find?_cons, hpb, Option.filter]
      | false =>
        simp only [List.filter_cons, hq, List.find?_cons, hpb, Option.filter,
          Bool.false_eq_true, if_false]
        exact hnone _ fun a ha => (List.mem_filter.mp ha).1
    · have hpb : (e.1 == chatId) = false := by simpa using hp
      cases hq : keep e with
      | true =>
        simp only [List.filter_cons, hq, if_true, List.find?_cons, hpb]
        exact ih hrest
      | false =>
        simp only [List.filter_cons, hq, Bool.false_eq_true, if_false, List.find?_cons, hpb]
        exact ih hrest

theorem uniqueKeys_delete (m : GameState) (chatId : String) (h : m.UniqueKeys) :
    (m.delete chatId).UniqueKeys := by
  unfold GameState.UniqueKeys GameState.delete at *
  exact List.Nodup.sublist (List.Sublist.map _ (List.filter_sublist _)) h

theorem uniqueKeys_set (m : GameState) (chatId : String) (game : Session)
    (h : m.UniqueKeys) : (m.set chatId game).UniqueKeys := by
  unfold GameState.UniqueKeys at *
  unfold GameState.set
  by_cases hhas : m.has chatId = true
  · rw [if_pos hhas]
    have hkeys : ((m.entries.map fun e => if e.1 == chatId then (chatId, game) else e).map
        fun e => e.1) = m.entries.map fun e => e.1 := by
      rw [List.map_map]
      apply List.map_congr_left
      intro e _
      by_cases he : e.1 = chatId
      · simp [he]
      · simp [he]
    rw [hkeys]
    exact h
  · rw [if_neg hhas]
    have hnone : (m.entries.find? fun e => e.1 == chatId) = none := by
      cases hf : m.entries.find? fun e => e.1 == chatId with
      | none => rfl
      | some e => exact absurd (by simp [GameState.has, GameState.get, hf]) hhas
    rw [List.find?_eq_none] at hnone
    simp only [List.map_append, List.map_cons, List.map_nil]
    refine List.Nodup.append h (List.nodup_singleton _) ?_
    intro k hk hk2
    rw [List.mem_singleton] at hk2
    obtain ⟨e, he, rfl⟩ := List.mem_map.mp hk
    exact hnone e he (by simpa using hk2)

theorem uniqueKeys_cleanupInterval (m : GameState) (now : Nat) (h : m.UniqueKeys) :
    (cleanupInterval m now).1.UniqueKeys := by
  unfold GameState.UniqueKeys cleanupInterval at *
  exact List.Nodup.sublist (List.Sublist.map _ (List.filter_sublist _)) h

theorem carreaux_table_cases (m : GameState) (chatId : String) (command : Command)
    (now : Nat) :
    (carreaux m chatId command now).1 =
        (if m.has chatId then m else m.set chatId (initGame now)) ∨
    (∃ g, (carreaux m chatId command now).1 =
        (if m.has chatId then m else m.set chatId (initGame now)).set chatId g) ∨
    (carreaux m chatId command now).1 =
        (if m.has chatId then m else m.set chatId (initGame now)).delete chatId := by
  unfold carreaux
  simp only
  repeat' split
  all_goals
    first
    | exact Or.inl rfl
    | exact Or.inr (Or.inl ⟨_, rfl⟩)
    | exact Or.inr (Or.inr rfl)

theorem uniqueKeys_carreaux (m : GameState) (chatId : String) (command : Command) (now : Nat)
    (h : m.UniqueKeys) : (carreaux m chatId command now).1.UniqueKeys := by
  have h0 : (if m.has chatId then m else m.set chatId (initGame now)).UniqueKeys := by
    split_ifs
    · exact h
    · exact uniqueKeys_set m chatId _ h
  rcases carreaux_table_cases m chatId command now with hr | ⟨g, hr⟩ | hr <;> rw [hr]
  · exact h0
  · exact uniqueKeys_set _ chatId g h0
  · exact uniqueKeys_delete _ chatId h0

theorem carreaux_start (m : GameState) (chatId : String) (now : Nat) :
    carreaux m chatId Command.start now =
      ((if m.has chatId then m else m.set chatId (initGame now)).set chatId (initGame now),
        Reply.newGame) := by
  have hsome : ∃ g, (if m.has chatId then m else m.set chatId (initGame now)).get chatId =
      some g := by
    by_cases hhas : m.has chatId = true
    · rw [if_pos hhas]
      exact Option.isSome_iff_exists.mp hhas
    · rw [if_neg hhas]
      exact ⟨_, GameState.get_set_self m chatId _⟩
  obtain ⟨g, hg⟩ := hsome
  simp only [carreaux, hg]

theorem cleanupInterval_get (m : GameState) (now : Nat) (chatId : String)
    (hkeys : m.UniqueKeys) :
    (cleanupInterval m now).1.get chatId =
      (m.get chatId).filter fun game =>
        !decide ((now : Int) - game.lastActivity > INACTIVE_TIMEOUT) := by
  simp only [cleanupInterval, GameState.get]
  rw [find_filter_unique m.entries chatId _ hkeys]
  cases m.entries.find? fun e => e.1 == chatId with
  | none => rfl
  | some e =>
    simp only [Option.filter, Option.map_some']
    split_ifs <;> rfl

/-- C12: in a table holding each chat id once, the idle sweep run at time `now`
removes every session whose last activity is more than 1,800,000 ms old, keeps
every other session unchanged, and adds no session. -/
theorem cleanup_sweep (m : GameState) (now : Nat) (hkeys : m.UniqueKeys) :
    (∀ chatId game, m.get chatId = some game →
      (now : Int) - game.lastActivity > 1800000 →
      (cleanupInterval m now).1.get chatId = none) ∧
    (∀ chatId game, m.get chatId = some game →
      (now : Int) - game.lastActivity ≤ 1800000 →
      (cleanupInterval m now).1.get chatId = some game) ∧
    (∀ chatId, m.get chatId = none → (cleanupInterval m now).1.get chatId = none) := by
  have htimeout : ((INACTIVE_TIMEOUT : Nat) : Int) = 1800000 := by
    simp [INACTIVE_TIMEOUT]
  refine ⟨?_, ?_, ?_⟩
  · intro chatId game hget hidle
    rw [cleanupInterval_get m now chatId hkeys, hget, htimeout]
    simp [Option.filter, hidle]
  · intro chatId game hget hactive
    rw [cleanupInterval_get m now chatId hkeys, hget, htimeout]
    have : ¬ ((now : Int) - game.lastActivity > 1800000) := by omega
    simp [Option.filter, this]
  · intro chatId hget
    rw [cleanupInterval_get m now chatId hkeys, hget]
    rfl

/-- Witness for C12: at time 1,800,001 the session last active at time 0 is removed,
the session last active at time 1 is kept, and the absent id stays absent. -/
theorem cleanup_sweep_witness :
    GameState.UniqueKeys { entries := [("idle", initGame 0), ("active", initGame 1)] } ∧
    (cleanupInterval { entries := [("idle", initGame 0), ("active", initGame 1)] }
      1800001).1.get "idle" = none ∧
    (cleanupInterval { entries := [("idle", initGame 0), ("active", initGame 1)] }
      1800001).1.get "active" = some (initGame 1) ∧
    (cleanupInterval { entries := [("idle", initGame 0), ("active", initGame 1)] }
      1800001).1.get "absent" = none :=
  ⟨by decide,
    (cleanup_sweep { entries := [("idle", initGame 0), ("active", initGame 1)] } 1800001
      (by decide)).1 "idle" (initGame 0) (by decide) (by decide),
    (cleanup_sweep { entries := [("idle", initGame 0), ("active", initGame 1)] } 1800001
      (by decide)).2.1 "active" (initGame 1) (by decide) (by decide),
    (cleanup_sweep { entries := [("idle", initGame 0), ("active", initGame 1)] } 1800001
      (by decide)).2.2 "absent" (by decide)⟩

/-- C15: the new-game command stores a fresh session under the chat id, whatever
was stored there before: a 5 x 5 grid of empty cells, both scores 0, red on turn,
no move counted or recorded; the sessions stored under other ids are unchanged. -/
theorem new_game_fresh (gameState : GameState) (chatId : String) (now : Nat) :
    (carreaux gameState chatId Command.start now).1.get chatId = some (initGame now) ∧
    (carreaux gameState chatId Command.start now).2 = Reply.newGame ∧
    (initGame now).size = 5 ∧
    (initGame now).grid = List.replicate 5 (List.replicate 5 none) ∧
    (initGame now).score = { R := 0, B := 0 } ∧
    (initGame now).turn = Player.R ∧
    (initGame now).moveCount = 0 ∧
    (initGame now).lastMove = none ∧
    ∀ other, other ≠ chatId →
      (carreaux gameState chatId Command.start now).1.get other = gameState.get other := by
  rw [carreaux_start]
  refine ⟨GameState.get_set_self _ chatId _, rfl, rfl, rfl, rfl, rfl, rfl, rfl, ?_⟩
  intro other hne
  rw [GameState.get_set_other _ chatId other _ hne]
  split_ifs
  · rfl
  · exact GameState.get_set_other _ chatId other _ hne

/-- Witness for C15: a new game requested under "chat" while a game with one move
is stored there and another game is stored under "other". -/
theorem new_game_fresh_witness :
    (carreaux { entries := [("chat", playMoves 0 (initGame 0) [(1, 1)]),
        ("other", playMoves 0 (initGame 0) [(2, 2)])] } "chat" Command.start 7).1.get "chat" =
      some (initGame 7) ∧
    (carreaux { entries := [("chat", playMoves 0 (initGame 0) [(1, 1)]),
        ("other", playMoves 0 (initGame 0) [(2, 2)])] } "chat" Command.start 7).1.get "other" =
      some (playMoves 0 (initGame 0) [(2, 2)]) :=
  ⟨(new_game_fresh { entries := [("chat", playMoves 0 (initGame 0) [(1, 1)]),
        ("other", playMoves 0 (initGame 0) [(2, 2)])] } "chat" 7).1,
    ((new_game_fresh { entries := [("chat", playMoves 0 (initGame 0) [(1, 1)]),
        ("other", playMoves 0 (initGame 0) [(2, 2)])] } "chat" 7).2.2.2.2.2.2.2.2
      "other" (by decide)).trans (by decide)⟩

/-! ## Statistics -/

theorem occupied_add_emptyCells (grid : List (List Cell)) :
    occupied grid + emptyCells grid = (grid.map List.length).sum := by
  induction grid with
  | nil => rfl
  | cons row rest ih =>
    have hrow : row.countP Option.isSome + row.countP Option.isNone = row.length := by
      induction row with
      | nil => rfl
      | cons c cs ihc =>
        cases c <;> simp only [List.countP_cons, Option.isSome_none, Option.isNone_none,
          Option.isSome_some, Option.isNone_some, List.length_cons] <;> simp <;> omega
    simp only [occupied, emptyCells, List.map_cons, List.sum_cons] at ih ⊢
    omega

theorem moveFlow_count (game : Session) (x y : Int) (now : Nat) (hinv : Inv game) :
    (moveFlow game x y now).game.size = GRID_SIZE ∧ WellFormed (moveFlow game x y now).game ∧
    (moveFlow game x y now).game.moveCount = occupied (moveFlow game x y now).game.grid := by
  by_cases hacc : isValidMove game x y = some true
  · obtain ⟨k, scored, -, hs, hcases⟩ := moveFlow_cases game x y now hinv.wf hacc
    obtain ⟨h1, h2, h3⟩ := inv_scored game x y now k hinv hacc
    rw [← hs] at h1 h2 h3
    rcases hcases with ⟨-, hm⟩ | ⟨-, -, hm⟩ | ⟨-, -, hm⟩ <;> rw [hm] <;> exact ⟨h1, h2, h3⟩
  · rw [moveFlow_not_accepted game x y now hacc]
    exact ⟨hinv.size_eq, hinv.wf, hinv.count⟩

theorem statsExact_of_count (game : Session) (now : Nat) (hsize : game.size = GRID_SIZE)
    (hwf : WellFormed game) (hcount : game.moveCount = occupied game.grid) :
    StatsExact game now := by
  have h1 := occupied_add_emptyCells game.grid
  have h2 := sum_lengths game.grid game.size hwf.2
  rw [hwf.1, hsize] at h2
  rw [h2] at h1
  simp only [GRID_SIZE] at h1
  simp only [StatsExact, getGameStats, hsize, GRID_SIZE, hcount]
  refine ⟨trivial, ?_, ?_, ?_⟩ <;> push_cast <;> omega

/-- C17: for a session reachable through the move flow, and for the session as any
further move leaves it (the final state of a game that has just ended included),
`getGameStats` reports as `totalMoves` the number of occupied cells and as
`emptySpaces` the number of empty cells, which lies between 0 and 25. -/
theorem stats_exact (game : Session) (x y : Int) (now later : Nat) (hreach : Reachable game) :
    StatsExact game later ∧ StatsExact (moveFlow game x y now).game later := by
  have hinv := inv_of_reachable game hreach
  obtain ⟨h1, h2, h3⟩ := moveFlow_count game x y now hinv
  exact ⟨statsExact_of_count game later hinv.size_eq hinv.wf hinv.count,
    statsExact_of_count _ later h1 h2 h3⟩

/-- Witness for C17: the checkerboard game before and after its 25th move; the
statistics report 24 moves and 1 empty cell, then 25 moves and no empty cell. -/
theorem stats_exact_witness :
    (getGameStats (playMoves 0 (initGame 0) checkerboard) 9).totalMoves = 24 ∧
    (getGameStats (playMoves 0 (initGame 0) checkerboard) 9).emptySpaces = 1 ∧
    (getGameStats (moveFlow (playMoves 0 (initGame 0) checkerboard) 4 4 5).game 9).totalMoves
      = 25 ∧
    (getGameStats (moveFlow (playMoves 0 (initGame 0) checkerboard) 4 4 5).game 9).emptySpaces
      = 0 ∧
    StatsExact (playMoves 0 (initGame 0) checkerboard) 9 ∧
    StatsExact (moveFlow (playMoves 0 (initGame 0) checkerboard) 4 4 5).game 9 :=
  ⟨by decide, by decide, by decide, by decide,
    stats_exact (playMoves 0 (initGame 0) checkerboard) 4 4 5 9
      (playMoves_reachable 0 checkerboard (initGame 0) (Reachable.fresh 0))⟩

/-! ## Scores and complete squares -/

theorem countP_split {α : Type} (l : List α) (cA cB k : α → Bool)
    (h1 : ∀ c ∈ l, k c = false → cA c = cB c) (h2 : ∀ c ∈ l, k c = true → cB c = false) :
    l.countP cA = l.countP cB + l.countP (fun c => k c && cA c) := by
  induction l with
  | nil => rfl
  | cons c rest ih =>
    have ih2 := ih (fun d hd => h1 d (List.mem_cons_of_mem _ hd))
      (fun d hd => h2 d (List.mem_cons_of_mem _ hd))
    simp only [List.countP_cons, ih2]
    cases hk : k c with
    | false =>
      rw [h1 c (List.mem_cons_self _ _) hk]
      simp
      omega
    | true =>
      rw [h2 c (List.mem_cons_self _ _) hk]
      simp
      omega

theorem countP_add_le {α : Type} (l : List α) (cA cB r : α → Bool)
    (hA : ∀ c ∈ l, cA c = true → r c = true) (hB : ∀ c ∈ l, cB c = true → r c = true)
    (hdis : ∀ c ∈ l, cA c = true → cB c = false) :
    l.countP cA + l.countP cB ≤ l.countP r := by
  induction l with
  | nil => simp
  | cons c rest ih =>
    have ih2 := ih (fun d hd => hA d (List.mem_cons_of_mem _ hd))
      (fun d hd => hB d (List.mem_cons_of_mem _ hd))
      (fun d hd => hdis d (List.mem_cons_of_mem _ hd))
    have hA1 := hA c (List.mem_cons_self _ _)
    have hB1 := hB c (List.mem_cons_self _ _)
    have hd1 := hdis c (List.mem_cons_self _ _)
    simp only [List.countP_cons]
    cases ha : cA c <;> cases hb : cB c <;> cases hr : r c <;> simp_all <;> omega

theorem completeSquare_congr (g1 g2 : Session) (q : Player) (a b : Int)
    (hsize : g1.size = g2.size) (hgrid : g1.grid = g2.grid) :
    completeSquare g1 q a b = completeSquare g2 q a b := by
  simp only [completeSquare, hsize, hgrid]

theorem squaresOf_congr (g1 g2 : Session) (q : Player)
    (hsize : g1.size = g2.size) (hgrid : g1.grid = g2.grid) :
    squaresOf g1 q = squaresOf g2 q := by
  simp only [squaresOf, completeSquare, hsize, hgrid]

theorem completeSquare_write_away (game g2 : Session) (x y a b : Int) (v : Cell) (q : Player)
    (hsize : g2.size = game.size) (hgrid : g2.grid = writeCell game.grid x y v)
    (hk : containsCell a b x y = false) :
    completeSquare g2 q a b = completeSquare game q a b := by
  simp only [containsCell, decide_eq_false_iff_not] at hk
  have h1 : (a, b) ≠ (x, y) := fun h => by rw [Prod.mk.injEq] at h; omega
  have h2 : (a + 1, b) ≠ (x, y) := fun h => by rw [Prod.mk.injEq] at h; omega
  have h3 : (a, b + 1) ≠ (x, y) := fun h => by rw [Prod.mk.injEq] at h; omega
  have h4 : (a + 1, b + 1) ≠ (x, y) := fun h => by rw [Prod.mk.injEq] at h; omega
  simp only [completeSquare, hsize, hgrid, List.all_cons, List.all_nil,
    readCell_writeCell_ne game.grid x y _ _ v h1, readCell_writeCell_ne game.grid x y _ _ v h2,
    readCell_writeCell_ne game.grid x y _ _ v h3, readCell_writeCell_ne game.grid x y _ _ v h4]

theorem completeSquare_blocked (game : Session) (x y a b : Int) (w : Cell) (q : Player)
    (hread : readCell game.grid x y = Read.value w) (hw : w ≠ some q)
    (hk : containsCell a b x y = true) : completeSquare game q a b = false := by
  simp only [containsCell, decide_eq_true_eq] at hk
  have hne : Read.value w ≠ Read.value (some q) := fun h => hw (Read.value.inj h)
  obtain ⟨hx, hy⟩ := hk
  rcases hx with rfl | rfl <;> rcases hy with rfl | rfl <;>
    simp [completeSquare, hread, hne]

theorem squares_placed (game : Session) (x y : Int) (now : Nat)
    (hnull : readCell game.grid x y = Read.value none) :
    squaresOf (placePiece game x y now) game.turn =
      squaresOf game game.turn + countSquaresAt (placePiece game x y now) x y ∧
    ∀ q, q ≠ game.turn → squaresOf (placePiece game x y now) q = squaresOf game q := by
  have hsize : (placePiece game x y now).size = game.size := rfl
  have hgrid : (placePiece game x y now).grid = writeCell game.grid x y (some game.turn) := rfl
  have hturn : (placePiece game x y now).turn = game.turn := rfl
  have hafter : readCell (placePiece game x y now).grid x y = Read.value (some game.turn) :=
    readCell_writeCell_self game.grid x y none _ hnull
  constructor
  · simp only [squaresOf, countSquaresAt, ← List.countP_eq_length_filter, hsize, hturn]
    exact countP_split (gridCells game.size) _ _ (fun c => containsCell c.1 c.2 x y)
      (fun c _ hk => completeSquare_write_away game _ x y c.1 c.2 _ game.turn hsize hgrid hk)
      (fun c _ hk => completeSquare_blocked game x y c.1 c.2 none game.turn hnull
        (fun h => Option.noConfusion h) hk)
  · intro q hq
    simp only [squaresOf, ← List.countP_eq_length_filter, hsize]
    apply List.countP_congr
    intro c _
    cases hk : containsCell c.1 c.2 x y with
    | false =>
      rw [completeSquare_write_away game _ x y c.1 c.2 _ q hsize hgrid hk]
    | true =>
      rw [completeSquare_blocked game x y c.1 c.2 none q hnull
        (fun h => Option.noConfusion h) hk,
        completeSquare_blocked (placePiece game x y now) x y c.1 c.2 (some game.turn) q hafter
          (fun h => hq (Option.some.inj h).symm) hk]

theorem squares_le_sixteen (game : Session) (hsize : game.size = GRID_SIZE) :
    squaresOf game Player.R + squaresOf game Player.B ≤ 16 := by
  have hcount : (gridCells 5).countP
      (fun c => decide (0 ≤ c.1 ∧ 0 ≤ c.2 ∧ c.1 + 1 < ((5 : Nat) : Int) ∧
        c.2 + 1 < ((5 : Nat) : Int))) = 16 := by
    decide
  simp only [squaresOf, ← List.countP_eq_length_filter, hsize, GRID_SIZE]
  rw [← hcount]
  apply countP_add_le
  · intro c _ h
    simp only [completeSquare, hsize, GRID_SIZE, Bool.and_eq_true] at h
    exact h.1
  · intro c _ h
    simp only [completeSquare, hsize, GRID_SIZE, Bool.and_eq_true] at h
    exact h.1
  · intro c _ h
    simp only [completeSquare, List.all_cons, Bool.and_eq_true, decide_eq_true_eq] at h
    have hread := h.2.1
    simp [completeSquare, hread]

theorem scoreExact_congr (g1 g2 : Session) (hscore : g2.score = g1.score)
    (hsize : g2.size = g1.size) (hgrid : g2.grid = g1.grid) (h : ScoreExact g1) :
    ScoreExact g2 := by
  unfold ScoreExact at *
  rw [hscore, squaresOf_congr g2 g1 Player.R hsize hgrid,
    squaresOf_congr g2 g1 Player.B hsize hgrid]
  exact h

theorem scoreExact_initGame (now : Nat) : ScoreExact (initGame now) :=
  scoreExact_congr (initGame 0) (initGame now) rfl rfl rfl (by decide)

theorem scoreExact_scored (game : Session) (x y : Int) (now k : Nat) (hinv : Inv game)
    (hse : ScoreExact game) (hacc : isValidMove game x y = some true)
    (hk : checkSquares (placePiece game x y now) x y = some k) :
    ScoreExact (scoreUpdate (placePiece game x y now) k) := by
  have hnull := (isValidMove_true game x y hacc).2.2.2.2
  have hwfp := wellFormed_placePiece game x y now hinv.wf
  have hkeq : k = countSquaresAt (placePiece game x y now) x y := by
    rw [checkSquares_eq _ hwfp, countP_checkPositions] at hk
    exact (Option.some.inj hk).symm
  obtain ⟨hmine, hother⟩ := squares_placed game x y now hnull
  rw [← hkeq] at hmine
  obtain ⟨hsz, hgrid, -⟩ := scoreUpdate_frame (placePiece game x y now) k
  have hsq : ∀ q, squaresOf (scoreUpdate (placePiece game x y now) k) q =
      squaresOf (placePiece game x y now) q := fun q => squaresOf_congr _ _ q hsz hgrid
  have hs := scoreUpdate_score (placePiece game x y now) k
  have hturn : (placePiece game x y now).turn = game.turn := rfl
  have hscore : (placePiece game x y now).score = game.score := rfl
  rw [hturn, hscore] at hs
  have hsize5 : (scoreUpdate (placePiece game x y now) k).size = GRID_SIZE := by
    rw [hsz]; exact hinv.size_eq
  have hle := squares_le_sixteen _ hsize5
  obtain ⟨hR, hB, -⟩ := hse
  obtain ⟨hs1, hs2⟩ := hs
  unfold ScoreExact
  rw [hsq, hsq] at hle ⊢
  cases ht : game.turn with
  | R =>
    rw [ht] at hmine hs1 hs2
    have hb := hother Player.B (by rw [ht]; exact fun h => Player.noConfusion h)
    simp only [Score.of, Player.other] at hs1 hs2
    refine ⟨by omega, by omega, by omega⟩
  | B =>
    rw [ht] at hmine hs1 hs2
    have hr := hother Player.R (by rw [ht]; exact fun h => Player.noConfusion h)
    simp only [Score.of, Player.other] at hs1 hs2
    refine ⟨by omega, by omega, by omega⟩

theorem scoreExact_moveFlow (game : Session) (x y : Int) (now : Nat) (hinv : Inv game)
    (hse : ScoreExact game) : ScoreExact (moveFlow game x y now).game := by
  by_cases hacc : isValidMove game x y = some true
  · obtain ⟨k, scored, hk, hs, hcases⟩ := moveFlow_cases game x y now hinv.wf hacc
    have h := scoreExact_scored game x y now k hinv hse hacc hk
    rw [← hs] at h
    rcases hcases with ⟨-, hm⟩ | ⟨-, -, hm⟩ | ⟨-, -, hm⟩ <;> rw [hm]
    · exact h
    · exact h
    · exact scoreExact_congr scored _ rfl rfl rfl h
  · rw [moveFlow_not_accepted game x y now hacc]
    exact hse

theorem scoreExact_of_reachable (game : Session) (h : Reachable game) : ScoreExact game := by
  induction h with
  | fresh now => exact scoreExact_initGame now
  | move x y now k hprev hstep ih =>
    have := scoreExact_moveFlow _ x y now (inv_of_reachable _ hprev) ih
    rw [hstep] at this
    exact this

/-- C19: for a session reachable through the move flow, and for the session as any
further move leaves it (the final state of a game that has just ended included),
`score.R` is the number of 2x2 sub-squares whose four cells are all red, `score.B`
the number whose four cells are all blue, and the two together are at most 16. -/
theorem score_counts_squares (game : Session) (x y : Int) (now : Nat)
    (hreach : Reachable game) :
    ScoreExact game ∧ ScoreExact (moveFlow game x y now).game :=
  ⟨scoreExact_of_reachable game hreach,
    scoreExact_moveFlow game x y now (inv_of_reachable game hreach)
      (scoreExact_of_reachable game hreach)⟩

/-- Witness for C19: the third game before and after blue's winning move; blue's
score goes from 4 to 5 as the grid goes from 4 to 5 blue squares, red stays at 2. -/
theorem score_counts_squares_witness :
    squaresOf (playMoves 0 (initGame 0) blueWins) Player.B = 4 ∧
    squaresOf (moveFlow (playMoves 0 (initGame 0) blueWins) 3 1 0).game Player.B = 5 ∧
    squaresOf (moveFlow (playMoves 0 (initGame 0) blueWins) 3 1 0).game Player.R = 2 ∧
    ScoreExact (playMoves 0 (initGame 0) blueWins) ∧
    ScoreExact (moveFlow (playMoves 0 (initGame 0) blueWins) 3 1 0).game :=
  ⟨by decide, by decide, by decide,
    score_counts_squares (playMoves 0 (initGame 0) blueWins) 3 1 0
      (playMoves_reachable 0 blueWins (initGame 0) (Reachable.fresh 0))⟩

/-! ## Grid accesses of the square detection -/

theorem everyCornerReads_result (grid : List (List Cell)) (player : Player)
    (cs : List (Int × Int)) :
    (everyCornerReads grid player cs).2 = everyCorner grid player cs := by
  induction cs with
  | nil => rfl
  | cons c rest ih =>
    obtain ⟨cx, cy⟩ := c
    unfold everyCornerReads everyCorner
    cases readCell grid cx cy with
    | typeError => rfl
    | undefined => rfl
    | value v =>
      cases v with
      | none => rfl
      | some p =>
        simp only
        split_ifs
        · exact ih
        · rfl

theorem everyCornerReads_mem (grid : List (List Cell)) (player : Player)
    (cs : List (Int × Int)) : ∀ c ∈ (everyCornerReads grid player cs).1, c ∈ cs := by
  induction cs with
  | nil => intro c hc; cases hc
  | cons d rest ih =>
    obtain ⟨cx, cy⟩ := d
    intro c hc
    unfold everyCornerReads at hc
    cases hr : readCell grid cx cy with
    | typeError =>
      rw [hr] at hc
      rw [List.mem_singleton.mp hc]; exact List.mem_cons_self _ _
    | undefined =>
      rw [hr] at hc
      rw [List.mem_singleton.mp hc]; exact List.mem_cons_self _ _
    | value v =>
      rw [hr] at hc
      cases v with
      | none =>
        rw [List.mem_singleton.mp hc]; exact List.mem_cons_self _ _
      | some p =>
        simp only at hc
        split_ifs at hc
        · rcases List.mem_cons.mp hc with h | h
          · rw [h]; exact List.mem_cons_self _ _
          · exact List.mem_cons_of_mem _ (ih c h)
        · rw [List.mem_singleton.mp hc]; exact List.mem_cons_self _ _

theorem checkSquaresLoopReads_result (game : Session) (player : Player)
    (l : List (Int × Int)) (n : Nat) :
    (checkSquaresLoopReads game player l n).2 = checkSquaresLoop game player l n := by
  induction l generalizing n with
  | nil => rfl
  | cons t rest ih =>
    obtain ⟨a, b⟩ := t
    unfold checkSquaresLoopReads checkSquaresLoop
    split_ifs
    · have hres := everyCornerReads_result game.grid player (corners a b)
      cases hr : everyCornerReads game.grid player (corners a b) with
      | mk reads res =>
        rw [hr] at hres
        simp only at hres
        rw [← hres]
        cases res with
        | none => rfl
        | some v =>
          cases v with
          | true => exact ih (n + 1)
          | false => exact ih n
    · exact ih n

theorem checkSquaresLoopReads_mem (game : Session) (player : Player)
    (l : List (Int × Int)) (n : Nat) :
    ∀ c ∈ (checkSquaresLoopReads game player l n).1,
      0 ≤ c.1 ∧ c.1 < game.size ∧ 0 ≤ c.2 ∧ c.2 < game.size := by
  induction l generalizing n with
  | nil => intro c hc; cases hc
  | cons t rest ih =>
    obtain ⟨a, b⟩ := t
    intro c hc
    unfold checkSquaresLoopReads at hc
    split_ifs at hc with hb
    · have hcorner : ∀ d ∈ (everyCornerReads game.grid player (corners a b)).1,
          0 ≤ d.1 ∧ d.1 < game.size ∧ 0 ≤ d.2 ∧ d.2 < game.size := by
        intro d hd
        have hmem := everyCornerReads_mem game.grid player (corners a b) d hd
        simp only [corners, List.mem_cons, List.mem_singleton, List.mem_nil_iff,
          or_false] at hmem
        rcases hmem with rfl | rfl | rfl | rfl <;> simp only <;> omega
      cases hr : everyCornerReads game.grid player (corners a b) with
      | mk reads res =>
        rw [hr] at hc hcorner
        cases res with
        | none => exact hcorner c hc
        | some v =>
          cases v with
          | true =>
            rcases List.mem_append.mp hc with h | h
            · exact hcorner c h
            · exact ih (n + 1) c h
          | false =>
            rcases List.mem_append.mp hc with h | h
            · exact hcorner c h
            · exact ih n c h
    · exact ih n c hc

/-- C20: on a session whose grid has size rows of size cells, for all integers
`x` and `y`, every grid access `grid[cy][cx]` that `checkSquares` makes has
`0 <= cx < size` and `0 <= cy < size` and finds a cell, `checkSquares` returns a
number without throwing, and for `(x, y)` outside the grid that number is 0. -/
theorem checkSquares_safe (game : Session) (x y : Int) (hwf : WellFormed game) :
    (checkSquaresReads game x y).2 = checkSquares game x y ∧
    (∀ c ∈ (checkSquaresReads game x y).1,
      0 ≤ c.1 ∧ c.1 < game.size ∧ 0 ≤ c.2 ∧ c.2 < game.size ∧
      ∃ v, readCell game.grid c.1 c.2 = Read.value v) ∧
    (∃ k, checkSquares game x y = some k) ∧
    ((x < 0 ∨ x ≥ game.size ∨ y < 0 ∨ y ≥ game.size) → checkSquares game x y = some 0) := by
  refine ⟨checkSquaresLoopReads_result game game.turn _ 0, ?_, ⟨_, checkSquares_eq game hwf x y⟩,
    ?_⟩
  · intro c hc
    obtain ⟨h1, h2, h3, h4⟩ := checkSquaresLoopReads_mem game game.turn _ 0 c hc
    exact ⟨h1, h2, h3, h4, readCell_wellFormed game hwf c.1 c.2 h1 h2 h3 h4⟩
  · intro hout
    rw [checkSquares_eq game hwf x y]
    congr 1
    rw [List.countP_eq_zero]
    intro c hc hcs
    simp only [checkPositions, List.mem_cons, List.mem_singleton, List.mem_nil_iff,
      or_false] at hc
    simp only [completeSquare, Bool.and_eq_true, decide_eq_true_eq] at hcs
    have hb := hcs.1
    rcases hc with rfl | rfl | rfl | rfl <;> simp only at hb <;> omega

/-- Witness for C20: in the position of the first game, `checkSquares` at (1, 1)
reads cells of the grid only, and at (5, 2), outside the grid, it returns 0. -/
theorem checkSquares_safe_witness :
    (checkSquaresReads (placePiece (playMoves 0 (initGame 0) lastCellWins) 1 1 0) 1 1).1 =
      [(0, 0), (1, 0), (0, 1), (1, 1), (1, 0), (2, 0), (1, 1), (2, 1),
       (0, 1), (1, 1), (0, 2), (1, 2), (1, 1), (2, 1), (1, 2), (2, 2)] ∧
    checkSquares (placePiece (playMoves 0 (initGame 0) lastCellWins) 1 1 0) 1 1 = some 3 ∧
    (∀ c ∈ (checkSquaresReads (placePiece (playMoves 0 (initGame 0) lastCellWins) 1 1 0)
        1 1).1,
      0 ≤ c.1 ∧ c.1 < (placePiece (playMoves 0 (initGame 0) lastCellWins) 1 1 0).size ∧
      0 ≤ c.2 ∧ c.2 < (placePiece (playMoves 0 (initGame 0) lastCellWins) 1 1 0).size ∧
      ∃ v, readCell (placePiece (playMoves 0 (initGame 0) lastCellWins) 1 1 0).grid c.1 c.2 =
        Read.value v) ∧
    checkSquares (placePiece (playMoves 0 (initGame 0) lastCellWins) 1 1 0) 5 2 = some 0 :=
  ⟨by decide, by decide,
    (checkSquares_safe (placePiece (playMoves 0 (initGame 0) lastCellWins) 1 1 0) 1 1
      (by decide)).2.1,
    (checkSquares_safe (placePiece (playMoves 0 (initGame 0) lastCellWins) 1 1 0) 5 2
      (by decide)).2.2.2 (by decide)⟩

/-! ## The hint list as a stable sort -/

theorem orderedInsert_all (a : Hint) (l : List Hint) (h : ∀ b ∈ l, hintOrder a b) :
    l.orderedInsert hintOrder a = a :: l := by
  cases l with
  | nil => rfl
  | cons b t => exact List.orderedInsert_of_le hintOrder t (h b (List.mem_cons_self _ _))

theorem orderedInsert_append (a : Hint) (l1 l2 : List Hint)
    (h : ∀ b ∈ l1, ¬ hintOrder a b) :
    (l1 ++ l2).orderedInsert hintOrder a = l1 ++ l2.orderedInsert hintOrder a := by
  induction l1 with
  | nil => rfl
  | cons b t ih =>
    have hb := h b (List.mem_cons_self _ _)
    have ih2 := ih fun c hc => h c (List.mem_cons_of_mem _ hc)
    simp only [List.cons_append, List.orderedInsert, hb, if_false]
    exact congrArg (List.cons b) ih2

theorem flatMap_congr_mem {α β : Type} (ks : List α) (f g : α → List β)
    (h : ∀ k ∈ ks, f k = g k) : ks.flatMap f = ks.flatMap g := by
  induction ks with
  | nil => rfl
  | cons k rest ih =>
    simp only [List.flatMap_cons, h k (List.mem_cons_self _ _),
      ih fun j hj => h j (List.mem_cons_of_mem _ hj)]

theorem orderedInsert_buckets (ks : List Nat) (hs : ks.Sorted (· > ·)) (a : Hint)
    (t : List Hint) (ha : a.squares ∈ ks) :
    (ks.flatMap fun k => t.filter fun h => decide (h.squares = k)).orderedInsert hintOrder a =
      ks.flatMap fun k => (a :: t).filter fun h => decide (h.squares = k) := by
  induction ks with
  | nil => cases ha
  | cons k0 rest ih =>
    obtain ⟨hgt, hrest⟩ := List.sorted_cons.mp hs
    simp only [List.flatMap_cons]
    by_cases hk : a.squares = k0
    · have htail : (rest.flatMap fun k => (a :: t).filter fun h => decide (h.squares = k)) =
          rest.flatMap fun k => t.filter fun h => decide (h.squares = k) := by
        apply flatMap_congr_mem
        intro k hkm
        have hne : ¬ a.squares = k := by have := hgt k hkm; omega
        simp [List.filter_cons, hne]
      rw [htail]
      have hhead : ((a :: t).filter fun h => decide (h.squares = k0)) =
          a :: t.filter fun h => decide (h.squares = k0) := by
        simp [List.filter_cons, hk]
      rw [hhead, List.cons_append]
      apply orderedInsert_all
      intro b hb
      unfold hintOrder
      rcases List.mem_append.mp hb with h1 | h1
      · have := (List.mem_filter.mp h1).2
        simp only [decide_eq_true_eq] at this
        omega
      · obtain ⟨k, hkm, hbk⟩ := List.mem_flatMap.mp h1
        have := (List.mem_filter.mp hbk).2
        simp only [decide_eq_true_eq] at this
        have := hgt k hkm
        omega
    · have hmem : a.squares ∈ rest := by
        rcases List.mem_cons.mp ha with h1 | h1
        · exact absurd h1 hk
        · exact h1
      have hlt := hgt _ hmem
      have hhead : ((a :: t).filter fun h => decide (h.squares = k0)) =
          t.filter fun h => decide (h.squares = k0) := by
        simp [List.filter_cons, hk]
      rw [hhead, orderedInsert_append, ih hrest hmem]
      intro b hb
      have := (List.mem_filter.mp hb).2
      simp only [decide_eq_true_eq] at this
      unfold hintOrder
      omega

theorem insertionSort_eq_byDescendingCount (l : List Hint)
    (h : ∀ a ∈ l, a.squares ∈ [4, 3, 2, 1]) :
    l.insertionSort hintOrder = byDescendingCount l := by
  induction l with
  | nil => rfl
  | cons a t ih =>
    have ih2 := ih fun b hb => h b (List.mem_cons_of_mem _ hb)
    rw [List.insertionSort, ih2]
    exact orderedInsert_buckets [4, 3, 2, 1] (by decide) a t (h a (List.mem_cons_self _ _))

theorem hintFor_some (game : Session) (c : Int × Int) (h : Hint)
    (hf : hintFor game c = some h) :
    readCell game.grid c.1 c.2 = Read.value none ∧
    checkSquares { game with grid := writeCell game.grid c.1 c.2 (some game.turn) } c.1 c.2 =
      some h.squares ∧
    0 < h.squares ∧ h.x = c.1 ∧ h.y = c.2 := by
  unfold hintFor at hf
  cases hr : readCell game.grid c.1 c.2 with
  | typeError => rw [hr] at hf; cases hf
  | undefined => rw [hr] at hf; cases hf
  | value v =>
    rw [hr] at hf
    cases v with
    | some p => cases hf
    | none =>
      simp only at hf
      cases hk : checkSquares { game with grid := writeCell game.grid c.1 c.2 (some game.turn) }
          c.1 c.2 with
      | none => rw [hk] at hf; cases hf
      | some k =>
        rw [hk] at hf
        simp only at hf
        split_ifs at hf with hpos
        · injection hf with hf
          subst hf
          exact ⟨rfl, rfl, hpos, rfl, rfl⟩

theorem hintsLoop_eq (game : Session) (hwf : WellFormed game) (cells : List (Int × Int))
    (hints : List Hint) (hcells : ∀ c ∈ cells, 0 ≤ c.2 ∧ c.2 < game.size) :
    hintsLoop game.turn cells game hints =
      (game, some (hints ++ cells.filterMap (hintFor game))) := by
  induction cells generalizing hints with
  | nil => simp [hintsLoop]
  | cons c rest ih =>
    obtain ⟨x, y⟩ := c
    have hy := hcells (x, y) (List.mem_cons_self _ _)
    have hrest : ∀ c ∈ rest, 0 ≤ c.2 ∧ c.2 < game.size :=
      fun c hc => hcells c (List.mem_cons_of_mem _ hc)
    have hne := readCell_ne_typeError game.grid x y hy.1 (by rw [hwf.1]; exact hy.2)
    unfold hintsLoop
    cases hr : readCell game.grid x y with
    | typeError => exact absurd hr hne
    | undefined =>
      have hf : hintFor game (x, y) = none := by simp only [hintFor, hr]
      simp only [List.filterMap_cons, hf]
      exact ih hints hrest
    | value v =>
      cases v with
      | some p =>
        have hf : hintFor game (x, y) = none := by simp only [hintFor, hr]
        simp only [List.filterMap_cons, hf]
        exact ih hints hrest
      | none =>
        have hwf1 : WellFormed { game with grid := writeCell game.grid x y (some game.turn) } :=
          ⟨by simpa [writeCell_length] using hwf.1,
            writeCell_rows game.grid x y _ game.size hwf.2⟩
        simp only
        cases hk : checkSquares { game with grid := writeCell game.grid x y (some game.turn) }
            x y with
        | none =>
          rw [checkSquares_eq _ hwf1] at hk
          cases hk
        | some k =>
          simp only
          rw [revert_eq game x y (some game.turn) hr, ih _ hrest]
          have hf : hintFor game (x, y) =
              if k > 0 then some { x := x, y := y, squares := k } else none := by
            simp only [hintFor, hr, hk]
          simp only [List.filterMap_cons, hf]
          split_ifs <;> simp

theorem qualifying_counts (game : Session) (hwf : WellFormed game) :
    ∀ a ∈ qualifyingCells game, a.squares ∈ [4, 3, 2, 1] := by
  intro a ha
  obtain ⟨c, -, hc⟩ := List.mem_filterMap.mp ha
  obtain ⟨-, hk, hpos, -⟩ := hintFor_some game c a hc
  have hwf1 : WellFormed { game with grid := writeCell game.grid c.1 c.2 (some game.turn) } :=
    ⟨by simpa [writeCell_length] using hwf.1,
      writeCell_rows game.grid c.1 c.2 _ game.size hwf.2⟩
  have hle := checkSquares_le_four _ c.1 c.2 a.squares hk hwf1
  simp only [List.mem_cons, List.mem_singleton, List.mem_nil_iff, or_false]
  omega

/-- C16: on a session with a size x size grid, `getHints` returns (leaving the
session as it was) the first three entries of the list of all empty cells whose
simulated placement by the player on turn completes at least one square, arranged
by descending square count with cells of equal count in row-major scan order. That
arrangement is a sorted permutation of the qualifying cells, no omitted qualifying
cell has a larger count than a returned one, and each returned count is what
`checkSquares` gives on the grid with that cell set to the player's marker. -/
theorem getHints_refines (game : Session) (hwf : WellFormed game) :
    getHints game = (game, some (hintsSpec game)) ∧
    (byDescendingCount (qualifyingCells game)).Perm (qualifyingCells game) ∧
    (byDescendingCount (qualifyingCells game)).Sorted (fun a b => a.squares ≥ b.squares) ∧
    (∀ h ∈ hintsSpec game, ∀ q ∈ qualifyingCells game, q ∉ hintsSpec game →
      q.squares ≤ h.squares) ∧
    (∀ h ∈ hintsSpec game, readCell game.grid h.x h.y = Read.value none ∧
      checkSquares { game with grid := writeCell game.grid h.x h.y (some game.turn) } h.x h.y =
        some h.squares ∧
      0 < h.squares) := by
  have hsort := insertionSort_eq_byDescendingCount (qualifyingCells game)
    (qualifying_counts game hwf)
  have hperm : (byDescendingCount (qualifyingCells game)).Perm (qualifyingCells game) := by
    rw [← hsort]; exact List.perm_insertionSort hintOrder _
  have hsorted : (byDescendingCount (qualifyingCells game)).Sorted hintOrder := by
    rw [← hsort]; exact List.sorted_insertionSort hintOrder _
  refine ⟨?_, hperm, hsorted, ?_, ?_⟩
  · simp only [getHints, hintsLoop_eq game hwf (scanOrder game.size) []
      (fun c hc => mem_scanOrder game.size c hc), List.nil_append, hintsSpec]
    rw [← hsort]
    rfl
  · intro h hh q hq hnot
    have hq2 : q ∈ byDescendingCount (qualifyingCells game) := hperm.mem_iff.mpr hq
    rw [← List.take_append_drop 3 (byDescendingCount (qualifyingCells game))] at hq2
    rcases List.mem_append.mp hq2 with h1 | h1
    · exact absurd h1 hnot
    · exact List.Sorted.rel_of_mem_take_of_mem_drop hsorted hh h1
  · intro h hh
    have hmem : h ∈ qualifyingCells game := hperm.mem_iff.mp (List.mem_of_mem_take hh)
    obtain ⟨c, -, hc⟩ := List.mem_filterMap.mp hmem
    obtain ⟨h1, h2, h3, hx, hy⟩ := hintFor_some game c h hc
    rw [hx, hy]
    exact ⟨h1, h2, h3⟩

/-- Witness for C16: red on turn has four qualifying cells, in scan order (3, 0)
with 1 square, (1, 1) with 3, (4, 1) with 1 and (2, 2) with 1; the hints are (1, 1),
(3, 0), (4, 1), and (2, 2) is left out. -/
theorem getHints_refines_witness :
    qualifyingCells (playMoves 0 (initGame 0) hintPosition) =
      [{ x := 3, y := 0, squares := 1 }, { x := 1, y := 1, squares := 3 },
       { x := 4, y := 1, squares := 1 }, { x := 2, y := 2, squares := 1 }] ∧
    hintsSpec (playMoves 0 (initGame 0) hintPosition) =
      [{ x := 1, y := 1, squares := 3 }, { x := 3, y := 0, squares := 1 },
       { x := 4, y := 1, squares := 1 }] ∧
    getHints (playMoves 0 (initGame 0) hintPosition) =
      (playMoves 0 (initGame 0) hintPosition,
        some (hintsSpec (playMoves 0 (initGame 0) hintPosition))) :=
  ⟨by decide, by decide,
    (getHints_refines (playMoves 0 (initGame 0) hintPosition) (by decide)).1⟩

/-! ## Validation of numbers that are not integers -/

theorem isValidMoveNumber_int (game : Session) (x y : Int) :
    isValidMoveNumber game (JsNumber.int x) (JsNumber.int y) = isValidMove game x y := by
  simp only [isValidMoveNumber, isValidMove, JsNumber.lt, JsNumber.ge, decide_eq_true_eq,
    readCellNumber, readCell, indexNumber]

theorem isValidMoveNumber_row (game : Session) (x y : JsNumber)
    (hrange : ¬ (x.lt 0 ∨ x.ge game.size ∨ y.lt 0 ∨ y.ge game.size))
    (hy : ∀ n, y ≠ JsNumber.int n) : isValidMoveNumber game x y = none := by
  unfold isValidMoveNumber
  rw [if_neg hrange]
  cases y with
  | int n => exact absurd rfl (hy n)
  | fraction f => rfl
  | nan => rfl

theorem isValidMoveNumber_column (game : Session) (x : JsNumber) (y : Int)
    (hwf : WellFormed game) (hx : ∀ n, x ≠ JsNumber.int n) :
    isValidMoveNumber game x (JsNumber.int y) = some false := by
  unfold isValidMoveNumber
  split_ifs with hrange
  · rfl
  · simp only [JsNumber.lt, JsNumber.ge, decide_eq_true_eq, not_or] at hrange
    obtain ⟨row, hrow, -⟩ := index_isSome game.grid y (by omega) (by rw [hwf.1]; omega)
    cases x with
    | int n => exact absurd rfl (hx n)
    | fraction f => simp only [readCellNumber, indexNumber, hrow]
    | nan => simp only [readCellNumber, indexNumber, hrow]

/-- C18 at the failing input: on a fresh game `isValidMove(game, 0, NaN)` throws
instead of returning false, and so does `isValidMove(game, 0, 1.5)`; with the
non-integer in the column position, `isValidMove(game, NaN, 0)` returns false. -/
theorem isValidMoveNumber_nan :
    isValidMoveNumber (initGame 0) (JsNumber.int 0) JsNumber.nan = none ∧
    isValidMoveNumber (initGame 0) (JsNumber.int 0) (JsNumber.fraction 1) = none ∧
    isValidMoveNumber (initGame 0) JsNumber.nan (JsNumber.int 0) = some false := by
  decide

end Carreaux
